import Mathlib

/-!
Verification development for the touch-from-button configuration editor
(`citra_qt/configuration/configure_touch_from_button.cpp`).

The dialog keeps three coupled representations in sync:
  * a vector of `Settings::TouchFromButtonMap` profiles (`touch_maps`),
  * a three-column binding list model (`binding_list_model`), and
  * a set of dots on the touch-screen preview canvas (`TouchScreenPreview::dots`),
and runs a single-shot input-capture session (`input_setter`, a timeout timer,
a poll timer and a set of device pollers) to resolve one descriptor per request.

Strings are embedded as `List Char` so that the descriptor serialize/parse
pair can be reasoned about character by character.  Qt-side machine integers
are embedded as `Int`; none of the modelled arithmetic overflows 32 bits on
the inputs the dialog produces.
-/

/-- Characters of a string literal, used to write `List Char` constants. -/
def strChars (s : String) : List Char := s.data

/-- Modelled from the spec: `Common::ParamPackage` (its source file is not part
of this repository; §4.1 of the spec describes it).  A generic serializable
record of string key/value pairs; the reserved key `engine` selects the
interpretation of the rest, and an absent `engine` means "unbound". -/
structure ParamPackage where
  data : List (List Char × List Char)
deriving DecidableEq, Repr

/-- The empty descriptor (`Common::ParamPackage{}` / `{}` at call sites). -/
def ParamPackage.empty : ParamPackage := ⟨[]⟩

/-- Modelled from the spec: `Has(key)` is a pure existence check. -/
def ParamPackage.Has (p : ParamPackage) (k : List Char) : Bool :=
  p.data.any (fun kv => kv.1 = k)

/-- Modelled from the spec: `Get(key, default)` for string values — missing
keys return the caller-supplied default. -/
def ParamPackage.getStr (p : ParamPackage) (k : List Char) (dflt : List Char) : List Char :=
  match p.data.find? (fun kv => kv.1 = k) with
  | some kv => kv.2
  | none => dflt

/-- Digits of a natural number, most significant first (`fuel` bounds the
recursion depth; `natChars` supplies enough for any input). -/
def natCharsAux : Nat → Nat → List Char
  | 0, _ => []
  | fuel + 1, n =>
    if n < 10 then [Nat.digitChar n]
    else natCharsAux fuel (n / 10) ++ [Nat.digitChar (n % 10)]

/-- Digits of a natural number, most significant first. -/
def natChars (n : Nat) : List Char := natCharsAux (n + 1) n

/-- Decimal rendering of an integer (the textual form of a numeric value
stored through `Set(key, int)`). -/
def intChars (i : Int) : List Char :=
  if i < 0 then '-' :: natChars i.natAbs else natChars i.natAbs

/-- Parse a digit string into a natural number; `none` when empty or when a
non-digit occurs. -/
def charsNat (l : List Char) : Option Nat :=
  l.foldl (fun acc c =>
    match acc with
    | none => none
    | some n => if c.isDigit then some (n * 10 + (c.toNat - 48)) else none)
    (if l.isEmpty then none else some 0)

/-- Modelled from the spec: numeric coercion of a stored value (the code uses
`std::stoi` semantics; an unparsable value falls back to the default). -/
def charsInt (l : List Char) : Option Int :=
  match l with
  | '-' :: rest => (charsNat rest).map (fun n => -(n : Int))
  | _ => (charsNat l).map (fun n => (n : Int))

/-- Modelled from the spec: `Get(key, default)` with numeric coercion. -/
def ParamPackage.getInt (p : ParamPackage) (k : List Char) (dflt : Int) : Int :=
  match p.data.find? (fun kv => kv.1 = k) with
  | some kv => (charsInt kv.2).getD dflt
  | none => dflt

/-- Modelled from the spec: `Set(key, value)` — updates the value of an
existing key, otherwise appends the pair. -/
def ParamPackage.set (p : ParamPackage) (k v : List Char) : ParamPackage :=
  if p.Has k then
    ⟨p.data.map (fun kv => if kv.1 = k then (kv.1, v) else kv)⟩
  else
    ⟨p.data ++ [(k, v)]⟩

/-- `Set(key, int)` — the integer is stored in its decimal textual form. -/
def ParamPackage.setInt (p : ParamPackage) (k : List Char) (v : Int) : ParamPackage :=
  p.set k (intChars v)

/-- Join a list of token strings with a separator string between tokens. -/
def joinSep (sep : List Char) : List (List Char) → List Char
  | [] => []
  | [t] => t
  | t :: t2 :: ts => t ++ sep ++ joinSep sep (t2 :: ts)

/-- Modelled from the spec: `Serialize()` — the canonical `key:value` pair
list joined by the fixed pair delimiter `,`. -/
def ParamPackage.Serialize (p : ParamPackage) : List Char :=
  joinSep [','] (p.data.map (fun kv => kv.1 ++ ':' :: kv.2))

/-- Split a character list at every occurrence of the separator character.
Always returns at least one (possibly empty) token. -/
def splitOnChar (c : Char) : List Char → List (List Char)
  | [] => [[]]
  | a :: as =>
    if a = c then [] :: splitOnChar c as
    else (a :: (splitOnChar c as).headD []) :: (splitOnChar c as).tail

/-- Modelled from the spec: `Parse(string)` — tokens are split on the pair
delimiter; a token that is not exactly `key:value` is tolerated and dropped
(malformed input never raises, it degrades towards an unbound descriptor). -/
def ParamPackage.Parse (s : List Char) : ParamPackage :=
  ⟨(splitOnChar ',' s).filterMap (fun tok =>
    match splitOnChar ':' tok with
    | [k, v] => some (k, v)
    | _ => none)⟩

/-! ## Coordinate mapping (`TouchScreenPreview`)

`Core::kScreenBottomWidth`/`kScreenBottomHeight` come from `core/3ds.h`
(not part of this repository): the 320×240 bottom-screen device space the
code references.  The `float` arithmetic of `MapToDeviceCoords` and
`PositionDot` is embedded exactly over `ℚ`, reading `round(v)` as
`⌊v + 1/2⌋` as the specification does; on the magnitudes involved the
float and rational evaluations agree on all inputs used below. -/

def kScreenBottomWidth : Int := 320

def kScreenBottomHeight : Int := 240

/-- One axis of `TouchScreenPreview::PositionDot`: the offset (from the
content margin) of the dot centre for device coordinate `x`, content extent
`P` pixels and device extent `w`.  (The additional `- dot->width() / 2`
term in the source recentres the dot label around this pixel and is not
part of the device→pixel affine map.) -/
def devPixel1D (w P x : Int) : Int :=
  ⌊(x : ℚ) * ((P : ℚ) - 1) / ((w : ℚ) - 1) + 1 / 2⌋

/-- One axis of `TouchScreenPreview::MapToDeviceCoords` before the range
check: `d` is the screen coordinate minus the content margin. -/
def pixDevT (w P d : Int) : ℚ :=
  1 / 2 + (d : ℚ) * ((w : ℚ) - 1) / (P : ℚ)

/-- `TouchScreenPreview::PositionDot`, both axes: pixel position of the dot
centre for a device point, given left/top margins and the content size. -/
def PositionDot (mL mT Pw Ph x y : Int) : Int × Int :=
  (mL + devPixel1D kScreenBottomWidth Pw x, mT + devPixel1D kScreenBottomHeight Ph y)

/-- `TouchScreenPreview::MapToDeviceCoords`: maps a screen point back into
the device grid, or `none` when the result falls outside `[0,W) × [0,H)`
(the truncation `static_cast<int>` equals the floor because the guard
forces both coordinates above `1/2`). -/
def MapToDeviceCoords (mL mT Pw Ph sx sy : Int) : Option (Int × Int) :=
  let t_x := pixDevT kScreenBottomWidth Pw (sx - mL)
  let t_y := pixDevT kScreenBottomHeight Ph (sy - mT)
  if 1 / 2 ≤ t_x ∧ t_x < (kScreenBottomWidth : ℚ) ∧
     1 / 2 ≤ t_y ∧ t_y < (kScreenBottomHeight : ℚ) then
    some (⌊t_x⌋, ⌊t_y⌋)
  else none

/-! ## The dialog model (`ConfigureTouchFromButton`) -/

/-- `Qt::Key_Escape` (0x01000000). -/
def keyEscape : Int := 16777216

/-- `Qt::Key_Delete` (0x01000007). -/
def keyDelete : Int := 16777223

def engineKey : List Char := strChars "engine"

def xKey : List Char := strChars "x"

def yKey : List Char := strChars "y"

/-- Modelled from the spec: `InputCommon::GenerateKeyboardParam` (input_common
is not part of this repository) — the keyboard-engine descriptor built from a
key code. -/
def GenerateKeyboardParam (key_code : Int) : ParamPackage :=
  ⟨[(engineKey, strChars "keyboard"), (strChars "code", intChars key_code)]⟩

/-- `GetKeyName`: display name of a key code.  Qt's `QKeySequence` rendering
is external; it is represented injectively by the decimal code. -/
def GetKeyName (key_code : Int) : List Char := intChars key_code

/-- `ButtonToText`: display text of a descriptor. -/
def ButtonToText (param : ParamPackage) : List Char :=
  if param.Has engineKey = false then strChars "[not set]"
  else if param.getStr engineKey [] = strChars "keyboard" then
    GetKeyName (param.getInt (strChars "code") 0)
  else if param.getStr engineKey [] = strChars "sdl" then
    if param.Has (strChars "hat") then
      strChars "Hat " ++ param.getStr (strChars "hat") [] ++ [' '] ++
        param.getStr (strChars "direction") []
    else if param.Has (strChars "axis") then
      strChars "Axis " ++ param.getStr (strChars "axis") [] ++
        param.getStr (strChars "direction") []
    else if param.Has (strChars "button") then
      strChars "Button " ++ param.getStr (strChars "button") []
    else []
  else strChars "[unknown]"

/-- `Settings::TouchFromButtonMap` (declared in core/settings.h, outside this
repository): a named profile whose `buttons` are serialized binding strings. -/
structure TouchFromButtonMap where
  name : String
  buttons : List (List Char)
deriving DecidableEq, Repr

/-- One row of the three-column `binding_list_model`: the column-0 display
text, the column-0 `UserRole+1` payload (serialized descriptor, empty until a
capture resolves), the column-0 `data_role_dot` payload (dot id), and the
numeric contents of the X and Y cells. -/
structure Row where
  text : List Char
  data : List Char
  dot : Option Int
  x : Int
  y : Int
deriving DecidableEq, Repr

/-- One entry of `TouchScreenPreview::dots` together with the label's
`prop_x`/`prop_y` properties. -/
structure Dot where
  id : Int
  x : Int
  y : Int
deriving DecidableEq, Repr

/-- The state captured by the `input_setter` closure. -/
structure Setter where
  row_index : Nat
  is_new : Bool
deriving DecidableEq, Repr

structure DialogState where
  touch_maps : List TouchFromButtonMap
  selected_index : Int
  rows : List Row
  dots : List Dot
  max_dot_id : Int
  input_setter : Option Setter
  timeout_running : Bool
  poll_running : Bool
  /-- Log of completion-callback invocations: the argument pair of every
  `(*input_setter)(params, cancel)` call, oldest first.  Not a C++ field;
  recorded to state the exactly-once property. -/
  fired : List (ParamPackage × Bool)
deriving DecidableEq, Repr

/-- Apply `f` to the element at index `i` (out of range: unchanged). -/
def modifyAt {α : Type} (l : List α) (i : Nat) (f : α → α) : List α :=
  match l, i with
  | [], _ => []
  | a :: as, 0 => f a :: as
  | a :: as, Nat.succ n => a :: modifyAt as n f

/-- `TouchScreenPreview::RemoveDot`: removes the first dot with the id. -/
def RemoveDot (dots : List Dot) (id : Int) : List Dot :=
  match dots with
  | [] => []
  | d :: ds => if d.id = id then ds else d :: RemoveDot ds id

/-- `TouchScreenPreview::AddDot`: allocates the next id, appends the dot,
returns the id together with the new dot list. -/
def AddDot (dots : List Dot) (max_dot_id : Int) (device_x device_y : Int) :
    Int × List Dot :=
  (max_dot_id + 1, dots ++ [⟨max_dot_id + 1, device_x, device_y⟩])

/-- `TouchScreenPreview::MoveDot`: repositions the first dot with the id. -/
def MoveDot (dots : List Dot) (id device_x device_y : Int) : List Dot :=
  match dots with
  | [] => []
  | d :: ds =>
    if d.id = id then ⟨d.id, device_x, device_y⟩ :: ds
    else d :: MoveDot ds id device_x device_y

/-- `OnBindingDeleted` for a single removed row (`rowsAboutToBeRemoved` with
`first = last = i`): removes the row's dot when the row exists and carries a
valid dot id. -/
def OnBindingDeleted1 (s : DialogState) (i : Nat) : DialogState :=
  match s.rows.get? i with
  | none => s
  | some r =>
    match r.dot with
    | none => s
    | some d => {s with dots := RemoveDot s.dots d}

/-- Qt's `removeRow(i)`: emits `rowsAboutToBeRemoved` (handled by
`OnBindingDeleted`) and then detaches the row. -/
def removeRow (s : DialogState) (i : Nat) : DialogState :=
  let s1 := OnBindingDeleted1 s i
  {s1 with rows := s1.rows.eraseIdx i}

/-- The dot removals triggered by `removeRows(0, rowCount())`: the
`rowsAboutToBeRemoved` handler walks every row and removes its dot. -/
def removeRowsDots (dots : List Dot) (rows : List Row) : List Dot :=
  rows.foldl (fun ds r =>
    match r.dot with
    | some d => RemoveDot ds d
    | none => ds) dots

/-- One iteration of the `UpdateUiDisplay` rebuild loop: parse a stored
button string, append its row, add its dot. -/
def appendRowFor (s : DialogState) (button_str : List Char) : DialogState :=
  let package := ParamPackage.Parse button_str
  let ad := AddDot s.dots s.max_dot_id (package.getInt xKey 0) (package.getInt yKey 0)
  {s with
    rows := s.rows ++ [⟨ButtonToText package, button_str, some ad.1,
                        package.getInt xKey 0, package.getInt yKey 0⟩],
    dots := ad.2,
    max_dot_id := ad.1}

/-- `ConfigureTouchFromButton::UpdateUiDisplay`: clears the binding list
(each removed row's dot goes through the `rowsAboutToBeRemoved` handler) and
rebuilds rows and dots from the selected profile.  The C++ indexes
`touch_maps[selected_index]` unconditionally; an out-of-range index —
reachable only by deleting the last profile — is undefined behaviour there
and is modelled as the empty profile. -/
def UpdateUiDisplay (s : DialogState) : DialogState :=
  let dots0 := removeRowsDots s.dots s.rows
  let map :=
    match s.touch_maps.get? s.selected_index.toNat with
    | some m => if 0 ≤ s.selected_index then m else TouchFromButtonMap.mk "" []
    | none => TouchFromButtonMap.mk "" []
  map.buttons.foldl appendRowFor {s with rows := [], dots := dots0}

/-- The serialized string `SaveCurrentMapping` stores for one row, or `none`
when the row is skipped (empty payload, or parsed descriptor without an
`engine` key). -/
def saveRow (r : Row) : Option (List Char) :=
  if r.data.isEmpty then none
  else
    let params := ParamPackage.Parse r.data
    if params.Has engineKey = false then none
    else some (((params.setInt xKey r.x).setInt yKey r.y).Serialize)

/-- The button strings the save loop of `SaveCurrentMapping` produces. -/
def savedButtons (rows : List Row) : List (List Char) :=
  rows.filterMap saveRow

/-- `ConfigureTouchFromButton::SaveCurrentMapping`: replaces the selected
profile's `buttons` with the serialized rows (rows without a bound
descriptor are skipped). -/
def SaveCurrentMapping (s : DialogState) : DialogState :=
  let commit := fun (m : TouchFromButtonMap) => {m with buttons := savedButtons s.rows}
  {s with touch_maps := modifyAt s.touch_maps s.selected_index.toNat commit}

/-- The `QComboBox::activated` handler wired in `ConnectEvents`: commits the
current rows, selects `index`, rebuilds the display. -/
def SelectProfile (s : DialogState) (index : Int) : DialogState :=
  UpdateUiDisplay {SaveCurrentMapping s with selected_index := index}

/-- `NewMapping` with the name the user typed (an empty name aborts).  Note
the `selected_index > 0` guard in front of the save. -/
def NewMapping (s : DialogState) (name : String) : DialogState :=
  if name = "" then s
  else
    let s1 := if s.selected_index > 0 then SaveCurrentMapping s else s
    let maps := s1.touch_maps ++ [TouchFromButtonMap.mk name []]
    UpdateUiDisplay {s1 with
      touch_maps := maps,
      selected_index := (maps.length : Int) - 1}

/-- `DeleteMapping` with the user's answer to the confirmation prompt. -/
def DeleteMapping (s : DialogState) (confirm : Bool) : DialogState :=
  if confirm = false then s
  else
    let maps := s.touch_maps.eraseIdx s.selected_index.toNat
    UpdateUiDisplay {s with
      touch_maps := maps,
      selected_index := if maps.length ≠ 0 then 0 else -1}

/-- `ApplyConfiguration` (the `QDialogButtonBox::accepted` handler): commits
the current rows into the store; the `accept()` call that follows is dialog
plumbing with no model state. -/
def ApplyConfiguration (s : DialogState) : DialogState :=
  SaveCurrentMapping s

/-- `GetButtonInput`: marks the cell, installs `input_setter`, starts the
pollers and both timers (5000 ms timeout, 200 ms poll). -/
def GetButtonInput (s : DialogState) (row_index : Nat) (is_new : Bool) : DialogState :=
  {s with
    rows := modifyAt s.rows row_index (fun r => {r with text := strChars "[press key]"}),
    input_setter := some ⟨row_index, is_new⟩,
    timeout_running := true,
    poll_running := true}

/-- The cell update performed on resolution: display text and serialized
descriptor are written into the row's column 0. -/
def resolveCell (params : ParamPackage) (r : Row) : Row :=
  {r with text := ButtonToText params, data := params.Serialize}

/-- The cell update performed when an edit of an existing binding is
cancelled: the display text is regenerated from the untouched payload. -/
def restoreCell (r : Row) : Row :=
  {r with text := ButtonToText (ParamPackage.Parse r.data)}

/-- The body of the `input_setter` closure installed by `GetButtonInput`. -/
def applySetter (s : DialogState) (st : Setter) (params : ParamPackage)
    (cancel : Bool) : DialogState :=
  if cancel = false then
    {s with rows := modifyAt s.rows st.row_index (resolveCell params)}
  else
    if st.is_new then removeRow s st.row_index
    else
      {s with rows := modifyAt s.rows st.row_index restoreCell}

/-- `SetPollingResult`: stops both timers and the pollers, then fires and
clears `input_setter` when still armed. -/
def SetPollingResult (s : DialogState) (params : ParamPackage) (cancel : Bool) :
    DialogState :=
  let s1 := {s with timeout_running := false, poll_running := false}
  match s1.input_setter with
  | none => s1
  | some st =>
    applySetter
      {s1 with input_setter := none, fired := s1.fired ++ [(params, cancel)]}
      st params cancel

/-- `NewBinding` (the `DotAdded` handler): appends a fresh row carrying a
fresh dot at the device point, then starts a capture for that row. -/
def NewBinding (s : DialogState) (px py : Int) : DialogState :=
  let ad := AddDot s.dots s.max_dot_id px py
  let s1 := {s with
    rows := s.rows ++ [⟨[], [], some ad.1, px, py⟩],
    dots := ad.2,
    max_dot_id := ad.1}
  GetButtonInput s1 (s1.rows.length - 1) true

/-- `EditBinding` (the double-click handler): a click on column 0 of an
existing row starts a capture for it. -/
def EditBinding (s : DialogState) (row col : Nat) : DialogState :=
  if col = 0 then GetButtonInput s row false else s

/-- `DeleteBinding`: removes the current row's dot and then the row itself
(the `rowsAboutToBeRemoved` handler then looks for the dot a second time and
finds it already gone).  `current` is the `currentIndex()` row, `none` when
nothing is selected. -/
def DeleteBinding (s : DialogState) (current : Option Nat) : DialogState :=
  match current with
  | none => s
  | some i =>
    match s.rows.get? i with
    | none => s
    | some r =>
      let s1 :=
        match r.dot with
        | some d => {s with dots := RemoveDot s.dots d}
        | none => s
      removeRow s1 i

/-- `OnBindingChanged` for an edit of row `i`; `v` is the numeric value
(`QString::toInt`) of the entered text.  Column 0 edits return immediately;
a coordinate edit is clamped (with signals blocked) and the row's dot is
moved to the row's coordinates. -/
def OnBindingChanged (s : DialogState) (i col : Nat) (v : Int) : DialogState :=
  if col = 0 then s
  else
    let s1 := {s with rows := modifyAt s.rows i (fun r =>
      if col = 1 then {r with x := max 0 (min v (kScreenBottomWidth - 1))}
      else {r with y := max 0 (min v (kScreenBottomHeight - 1))})}
    match s1.rows.get? i with
    | none => s1
    | some r =>
      match r.dot with
      | some d => {s1 with dots := MoveDot s1.dots d r.x r.y}
      | none => s1

/-- `keyPressEvent`: outside a capture, Delete removes the current binding
and anything else falls through to the dialog; during a capture, any key but
Escape resolves with a keyboard descriptor and Escape cancels. -/
def KeyPressEvent (s : DialogState) (code : Int) (current : Option Nat) : DialogState :=
  match s.input_setter with
  | none => if code = keyDelete then DeleteBinding s current else s
  | some _ =>
    if code ≠ keyEscape then SetPollingResult s (GenerateKeyboardParam code) false
    else SetPollingResult s ParamPackage.empty true

/-- The poll-timer handler body: in source order, the first poller result
whose descriptor has an `engine` key wins. -/
def pollScan (results : List ParamPackage) : Option ParamPackage :=
  results.find? (fun p => p.Has engineKey)

/-- External stimuli delivered to the dialog.  A `key` event carries the
`currentIndex()` row at delivery time (used only by the Delete shortcut
outside captures); a `poll` event carries each poller's `GetNextInput()`
result for that tick, in source order; canvas clicks and delete-button
clicks cannot reach their handlers while the keyboard/mouse grab of an
active capture is in force and are therefore guarded on `input_setter`. -/
inductive Event where
  | key (code : Int) (current : Option Nat)
  | timeout
  | poll (results : List ParamPackage)
  | addBinding (px py : Int)
  | deleteBind (current : Option Nat)
deriving DecidableEq, Repr

/-- One event step of the dialog.  Timer events are guarded by their timer
being running (a stopped `QTimer` delivers no tick). -/
def step (s : DialogState) (e : Event) : DialogState :=
  match e with
  | .key code current => KeyPressEvent s code current
  | .timeout =>
    if s.timeout_running then SetPollingResult s ParamPackage.empty true else s
  | .poll results =>
    if s.poll_running then
      match pollScan results with
      | some params => SetPollingResult s params false
      | none => s
    else s
  | .addBinding px py => if s.input_setter.isNone then NewBinding s px py else s
  | .deleteBind current => if s.input_setter.isNone then DeleteBinding s current else s

def run (s : DialogState) (evs : List Event) : DialogState := evs.foldl step s

/-- The state passed to the completion callback by `SetPollingResult` when a
capture is armed: timers stopped, setter cleared, invocation logged. -/
def firedState (s : DialogState) (params : ParamPackage) (cancel : Bool) : DialogState :=
  {s with
    timeout_running := false
    poll_running := false
    input_setter := none
    fired := s.fired ++ [(params, cancel)]}

/-! ## Example states used by concrete instantiations -/

/-- A freshly opened dialog: one empty profile, nothing captured. -/
def exIdle : DialogState :=
  ⟨[⟨"default", []⟩], 0, [], [], 0, none, false, false, []⟩

/-- A row bound to keyboard key 65 at device point (5, 6), carrying dot 1. -/
def exRow : Row :=
  ⟨ButtonToText (GenerateKeyboardParam 65), (GenerateKeyboardParam 65).Serialize,
    some 1, 5, 6⟩

/-- The dialog with one pending (uncommitted) binding row: the store still
holds an empty profile. -/
def exPend : DialogState :=
  ⟨[⟨"default", []⟩], 0, [exRow], [⟨1, 5, 6⟩], 1, none, false, false, []⟩

/-- `exPend` with a capture session armed for the existing row 0. -/
def exCapture : DialogState :=
  {exPend with
    input_setter := some ⟨0, false⟩
    timeout_running := true
    poll_running := true}

/-- A two-profile store with the second profile selected. -/
def exTwo : DialogState :=
  ⟨[⟨"default", []⟩, ⟨"P2", []⟩], 1, [], [], 0, none, false, false, []⟩

/-- `exPend` with a second profile appended and selected (index 1). -/
def exPendAt1 : DialogState :=
  {exPend with
    touch_maps := [⟨"default", []⟩, ⟨"P2", []⟩]
    selected_index := 1}

/-- The single string saved for the example row. -/
def exSaved : List Char := (savedButtons [exRow]).headD []

/-! ## C1 — the completion callback fires exactly once per session -/

/-- Events that can reach an armed session: key presses and timer ticks
(starting another capture is a different session, not an event of this
one). -/
def isSessionEvent : Event → Bool
  | .key _ _ => true
  | .timeout => true
  | .poll _ => true
  | .addBinding _ _ => false
  | .deleteBind _ => false

/-- The invariant of a started capture session: while armed, nothing has
fired and both timers run; once disarmed, both timers are stopped and the
callback has fired exactly once; cancel invocations always carry the empty
descriptor. -/
def CaptureInv (s : DialogState) : Prop :=
  (∀ st, s.input_setter = some st →
    s.fired = [] ∧ s.timeout_running = true ∧ s.poll_running = true) ∧
  (s.input_setter = none →
    s.timeout_running = false ∧ s.poll_running = false ∧ s.fired.length = 1) ∧
  (∀ f ∈ s.fired, f.2 = true → f.1 = ParamPackage.empty)

/-- The dual-representation invariant of the dialog: rows and dots are
aligned index by index (each row's `data_role_dot` is the id of the dot at
the same position), dot ids are unique and bounded by the id counter, and
an armed capture targets an existing row. -/
def SyncInv (s : DialogState) : Prop :=
  s.rows.map Row.dot = s.dots.map (fun d => some d.id) ∧
  (s.dots.map Dot.id).Nodup ∧
  (∀ d ∈ s.dots, d.id ≤ s.max_dot_id) ∧
  (∀ st, s.input_setter = some st → st.row_index < s.rows.length)

theorem splitOnChar_cons_self (c : Char) (as : List Char) :
    splitOnChar c (c :: as) = [] :: splitOnChar c as := by
  simp [splitOnChar]

theorem splitOnChar_cons_ne (c a : Char) (as : List Char) (h : a ≠ c) :
    splitOnChar c (a :: as) =
      (a :: (splitOnChar c as).headD []) :: (splitOnChar c as).tail := by
  simp [splitOnChar, h]

theorem splitOnChar_ne_nil (c : Char) (l : List Char) : splitOnChar c l ≠ [] := by
  cases l with
  | nil => simp [splitOnChar]
  | cons a as =>
    simp only [splitOnChar]
    split <;> simp

theorem headD_append_of_ne_nil {α : Type} (l l2 : List α) (d : α) (h : l ≠ []) :
    (l ++ l2).headD d = l.headD d := by
  cases l with
  | nil => exact absurd rfl h
  | cons a as => rfl

theorem tail_append_of_ne_nil {α : Type} (l l2 : List α) (h : l ≠ []) :
    (l ++ l2).tail = l.tail ++ l2 := by
  cases l with
  | nil => exact absurd rfl h
  | cons a as => rfl

/-- Splitting distributes over an explicit separator occurrence. -/
theorem splitOnChar_append (c : Char) (xs ys : List Char) :
    splitOnChar c (xs ++ c :: ys) = splitOnChar c xs ++ splitOnChar c ys := by
  induction xs with
  | nil => simp [splitOnChar]
  | cons a as ih =>
    by_cases hac : a = c
    · subst hac
      rw [List.cons_append, splitOnChar_cons_self, splitOnChar_cons_self, ih]
      rfl
    · rw [List.cons_append, splitOnChar_cons_ne c a _ hac, splitOnChar_cons_ne c a as hac, ih,
          headD_append_of_ne_nil _ _ _ (splitOnChar_ne_nil c as),
          tail_append_of_ne_nil _ _ (splitOnChar_ne_nil c as)]
      rfl

/-- A separator-free list splits into the single token it is. -/
theorem splitOnChar_of_not_mem (c : Char) (l : List Char) (h : c ∉ l) :
    splitOnChar c l = [l] := by
  induction l with
  | nil => rfl
  | cons a as ih =>
    have ha : a ≠ c := fun hac => h (hac ▸ List.mem_cons_self a as)
    have has : c ∉ as := fun hmem => h (List.mem_cons_of_mem a hmem)
    simp [splitOnChar, if_neg ha, ih has]

/-- Tokens produced by splitting do not contain the separator. -/
theorem not_mem_of_mem_splitOnChar (c : Char) (l : List Char) (t : List Char)
    (ht : t ∈ splitOnChar c l) : c ∉ t := by
  induction l generalizing t with
  | nil =>
    simp [splitOnChar] at ht
    subst ht; simp
  | cons a as ih =>
    by_cases hac : a = c
    · subst hac
      rw [splitOnChar_cons_self] at ht
      rcases List.mem_cons.mp ht with h1 | h2
      · subst h1; simp
      · exact ih t h2
    · rw [splitOnChar_cons_ne c a as hac] at ht
      rcases List.mem_cons.mp ht with h1 | h2
      · subst h1
        intro hmem
        rcases List.mem_cons.mp hmem with h3 | h4
        · exact hac h3.symm
        · have hh : (splitOnChar c as).headD [] ∈ splitOnChar c as := by
            cases hsp : splitOnChar c as with
            | nil => exact absurd hsp (splitOnChar_ne_nil c as)
            | cons x xs => simp
          exact ih _ hh h4
      · have hh : t ∈ splitOnChar c as := by
          cases hsp : splitOnChar c as with
          | nil => exact absurd hsp (splitOnChar_ne_nil c as)
          | cons x xs =>
            rw [hsp] at h2
            simp only [List.tail_cons] at h2
            exact List.mem_cons_of_mem x h2
        exact ih t hh

/-- Joining the split tokens restores the original list. -/
theorem joinSep_splitOnChar (c : Char) (l : List Char) :
    joinSep [c] (splitOnChar c l) = l := by
  induction l with
  | nil => rfl
  | cons a as ih =>
    by_cases hac : a = c
    · subst hac
      rw [splitOnChar_cons_self]
      cases hsp : splitOnChar a as with
      | nil => exact absurd hsp (splitOnChar_ne_nil a as)
      | cons x xs =>
        rw [hsp] at ih
        simp [joinSep, ih]
    · rw [splitOnChar_cons_ne c a as hac]
      cases hsp : splitOnChar c as with
      | nil => exact absurd hsp (splitOnChar_ne_nil c as)
      | cons x xs =>
        rw [hsp] at ih
        cases xs with
        | nil =>
          simp only [joinSep] at ih
          simp [joinSep, ih]
        | cons y ys =>
          simp only [joinSep] at ih ⊢
          simp only [List.headD_cons, List.tail_cons, List.cons_append]
          rw [ih]

/-- A separator-free token of the joined list is recovered by splitting. -/
theorem mem_splitOnChar_joinSep (c : Char) (toks : List (List Char)) (t : List Char)
    (hmem : t ∈ toks) (hfree : c ∉ t) :
    t ∈ splitOnChar c (joinSep [c] toks) := by
  induction toks with
  | nil => cases hmem
  | cons x xs ih =>
    cases xs with
    | nil =>
      rcases List.mem_cons.mp hmem with h1 | h2
      · subst h1
        simp [joinSep, splitOnChar_of_not_mem c t hfree]
      · cases h2
    | cons y ys =>
      simp only [joinSep]
      have : x ++ [c] ++ joinSep [c] (y :: ys) = x ++ c :: joinSep [c] (y :: ys) := by
        simp
      rw [this, splitOnChar_append]
      rcases List.mem_cons.mp hmem with h1 | h2
      · subst h1
        exact List.mem_append_left _ (by rw [splitOnChar_of_not_mem c t hfree]; simp)
      · exact List.mem_append_right _ (ih h2)

theorem ParamPackage.has_exists (p : ParamPackage) (k : List Char)
    (h : p.Has k = true) : ∃ v, (k, v) ∈ p.data := by
  simp only [ParamPackage.Has, List.any_eq_true, decide_eq_true_eq] at h
  obtain ⟨kv, hmem, hk⟩ := h
  exact ⟨kv.2, by rw [← hk]; exact hmem⟩

theorem ParamPackage.mem_has (p : ParamPackage) (k v : List Char)
    (h : (k, v) ∈ p.data) : p.Has k = true := by
  simp only [ParamPackage.Has, List.any_eq_true, decide_eq_true_eq]
  exact ⟨(k, v), h, rfl⟩

/-- `Set` with a different key preserves the pairs of the package. -/
theorem ParamPackage.mem_set_of_ne (p : ParamPackage) (k v key val : List Char)
    (hmem : (k, v) ∈ p.data) (hne : k ≠ key) : (k, v) ∈ (p.set key val).data := by
  unfold ParamPackage.set
  by_cases h : p.Has key = true
  · simp only [h, if_true]
    have : (fun kv => if kv.1 = key then (kv.1, val) else kv) (k, v) = (k, v) := by
      simp [hne]
    rw [← this]
    exact List.mem_map_of_mem _ hmem
  · simp only [h]
    simp only [Bool.false_eq_true, if_false]
    exact List.mem_append_left _ hmem

theorem ParamPackage.mem_setInt_of_ne (p : ParamPackage) (k v key : List Char) (n : Int)
    (hmem : (k, v) ∈ p.data) (hne : k ≠ key) : (k, v) ∈ (p.setInt key n).data :=
  ParamPackage.mem_set_of_ne p k v key (intChars n) hmem hne

/-- A key/value pair recovered by `Parse` contains neither delimiter. -/
theorem Parse_pair_free (s k v : List Char) (h : (k, v) ∈ (ParamPackage.Parse s).data) :
    (',' ∉ k ∧ ':' ∉ k) ∧ (',' ∉ v ∧ ':' ∉ v) := by
  simp only [ParamPackage.Parse, List.mem_filterMap] at h
  obtain ⟨tok, htok, hf⟩ := h
  have hsplit : splitOnChar ':' tok = [k, v] := by
    cases hsp : splitOnChar ':' tok with
    | nil => rw [hsp] at hf; cases hf
    | cons a l =>
      cases l with
      | nil => rw [hsp] at hf; cases hf
      | cons b l2 =>
        cases l2 with
        | nil =>
          rw [hsp] at hf
          simp only [Option.some.injEq, Prod.mk.injEq] at hf
          rw [hf.1, hf.2]
        | cons c2 l3 => rw [hsp] at hf; cases hf
  have hk_colon : ':' ∉ k :=
    not_mem_of_mem_splitOnChar ':' tok k (by rw [hsplit]; simp)
  have hv_colon : ':' ∉ v :=
    not_mem_of_mem_splitOnChar ':' tok v (by rw [hsplit]; simp)
  have htok_comma : ',' ∉ tok := not_mem_of_mem_splitOnChar ',' s tok htok
  have hjoin : k ++ ':' :: v = tok := by
    have := joinSep_splitOnChar ':' tok
    rw [hsplit] at this
    simpa [joinSep] using this
  constructor
  · refine ⟨fun hm => htok_comma ?_, hk_colon⟩
    rw [← hjoin]
    exact List.mem_append_left _ hm
  · refine ⟨fun hm => htok_comma ?_, hv_colon⟩
    rw [← hjoin]
    exact List.mem_append_right _ (List.mem_cons_of_mem _ hm)

/-- A delimiter-free pair of a package survives the serialize/parse round
trip, whatever the other pairs contain. -/
theorem mem_Parse_Serialize (p : ParamPackage) (k v : List Char)
    (hmem : (k, v) ∈ p.data)
    (hk : ',' ∉ k ∧ ':' ∉ k) (hv : ',' ∉ v ∧ ':' ∉ v) :
    (k, v) ∈ (ParamPackage.Parse p.Serialize).data := by
  have htok_mem : (k ++ ':' :: v) ∈ p.data.map (fun kv => kv.1 ++ ':' :: kv.2) := by
    have := List.mem_map_of_mem (fun kv : List Char × List Char => kv.1 ++ ':' :: kv.2) hmem
    simpa using this
  have htok_free : ',' ∉ k ++ ':' :: v := by
    intro hm
    rcases List.mem_append.mp hm with h1 | h2
    · exact hk.1 h1
    · rcases List.mem_cons.mp h2 with h3 | h4
      · exact absurd h3 (by decide)
      · exact hv.1 h4
  have hsplit_tok : (k ++ ':' :: v) ∈ splitOnChar ',' p.Serialize :=
    mem_splitOnChar_joinSep ',' _ _ htok_mem htok_free
  simp only [ParamPackage.Parse, List.mem_filterMap]
  refine ⟨k ++ ':' :: v, hsplit_tok, ?_⟩
  rw [splitOnChar_append ':' k v, splitOnChar_of_not_mem ':' k hk.2,
      splitOnChar_of_not_mem ':' v hv.2]
  rfl

/-- One-dimensional round trip: quantisation through `devPixel1D` followed
by `pixDevT` lands back on `x` as soon as the pixel extent is at least
three times the device extent. -/
theorem round_trip_1d (w P x : Int) (hw : 2 ≤ w) (hx0 : 0 ≤ x) (hxw : x < w)
    (hP : 3 * (w - 1) ≤ P) :
    1 / 2 ≤ pixDevT w P (devPixel1D w P x) ∧
      pixDevT w P (devPixel1D w P x) < (w : ℚ) ∧
      ⌊pixDevT w P (devPixel1D w P x)⌋ = x := by
  have hwq : (0 : ℚ) < (w : ℚ) - 1 := by
    have h2 : (2 : ℚ) ≤ (w : ℚ) := by exact_mod_cast hw
    linarith
  have hPc : (3 : ℚ) * ((w : ℚ) - 1) ≤ (P : ℚ) := by exact_mod_cast hP
  have hPq : (0 : ℚ) < (P : ℚ) := by linarith
  have hx0q : (0 : ℚ) ≤ (x : ℚ) := by exact_mod_cast hx0
  have hxwq : (x : ℚ) ≤ (w : ℚ) - 1 := by
    have : (x : ℚ) + 1 ≤ (w : ℚ) := by exact_mod_cast hxw
    linarith
  have hw1 : (1 : ℚ) ≤ (w : ℚ) - 1 := by
    have h2 : (2 : ℚ) ≤ (w : ℚ) := by exact_mod_cast hw
    linarith
  have hP1 : (0 : ℚ) ≤ (P : ℚ) - 1 := by linarith
  set a : ℚ := (x : ℚ) * ((P : ℚ) - 1) / ((w : ℚ) - 1) with ha
  set n : Int := devPixel1D w P x with hn
  have hna : n = ⌊a + 1 / 2⌋ := rfl
  have hfl : (n : ℚ) ≤ a + 1 / 2 := by rw [hna]; exact Int.floor_le _
  have hfu : a + 1 / 2 < (n : ℚ) + 1 := by
    rw [hna]
    have := Int.lt_floor_add_one (a + 1 / 2)
    push_cast at this ⊢
    linarith
  have key : a * ((w : ℚ) - 1) = (x : ℚ) * ((P : ℚ) - 1) := by
    rw [ha]; field_simp
  have h1 : (n : ℚ) * ((w : ℚ) - 1) ≤ (x : ℚ) * ((P : ℚ) - 1) + ((w : ℚ) - 1) / 2 := by
    have hmul : (n : ℚ) * ((w : ℚ) - 1) ≤ (a + 1 / 2) * ((w : ℚ) - 1) :=
      mul_le_mul_of_nonneg_right hfl hwq.le
    nlinarith [key]
  have h2 : (x : ℚ) * ((P : ℚ) - 1) < (n : ℚ) * ((w : ℚ) - 1) + ((w : ℚ) - 1) / 2 := by
    have hmul : a * ((w : ℚ) - 1) < ((n : ℚ) + 1 / 2) * ((w : ℚ) - 1) :=
      mul_lt_mul_of_pos_right (by linarith) hwq
    nlinarith [key]
  have hn0 : (0 : ℚ) ≤ (n : ℚ) := by
    have han : (0 : ℚ) ≤ a := by
      rw [ha]; exact div_nonneg (mul_nonneg hx0q hP1) hwq.le
    have : (0 : Int) ≤ n := by
      rw [hna]
      exact Int.floor_nonneg.mpr (by linarith)
    exact_mod_cast this
  have ht : pixDevT w P n = 1 / 2 + (n : ℚ) * ((w : ℚ) - 1) / (P : ℚ) := rfl
  have hfrac0 : (0 : ℚ) ≤ (n : ℚ) * ((w : ℚ) - 1) / (P : ℚ) :=
    div_nonneg (mul_nonneg hn0 hwq.le) hPq.le
  have hlow : (x : ℚ) ≤ pixDevT w P n := by
    have hstep : ((x : ℚ) - 1 / 2) * (P : ℚ) ≤ (n : ℚ) * ((w : ℚ) - 1) := by
      nlinarith [h2]
    have hdiv : (x : ℚ) - 1 / 2 ≤ (n : ℚ) * ((w : ℚ) - 1) / (P : ℚ) :=
      (le_div_iff₀ hPq).mpr hstep
    rw [ht]; linarith
  have hhigh : pixDevT w P n < (x : ℚ) + 1 := by
    have hstep : (n : ℚ) * ((w : ℚ) - 1) < ((x : ℚ) + 1 / 2) * (P : ℚ) := by
      nlinarith [h1]
    have hdiv : (n : ℚ) * ((w : ℚ) - 1) / (P : ℚ) < (x : ℚ) + 1 / 2 :=
      (div_lt_iff₀ hPq).mpr hstep
    rw [ht]; linarith
  refine ⟨by rw [ht]; linarith, by linarith, ?_⟩
  rw [Int.floor_eq_iff]
  constructor
  · exact_mod_cast hlow
  · exact_mod_cast hhigh

/-- C2 (counterexample): with the canvas content exactly the device size
(`Pw = W = 320`, `Ph = H = 240`, margins 0) — which satisfies the claim's
premise `Pw ≥ W`, `Ph ≥ H` — the corner device point `(319, 239)` does not
round-trip: placing its dot and mapping the dot's pixel back yields
`(318, 238)`. -/
theorem c2_no_round_trip_at_edge :
    MapToDeviceCoords 0 0 320 240
        (PositionDot 0 0 320 240 319 239).1 (PositionDot 0 0 320 240 319 239).2
      = some (318, 238) ∧
    MapToDeviceCoords 0 0 320 240
        (PositionDot 0 0 320 240 319 239).1 (PositionDot 0 0 320 240 319 239).2
      ≠ some (319, 239) := by
  constructor
  · norm_num [MapToDeviceCoords, PositionDot, pixDevT, devPixel1D,
      kScreenBottomWidth, kScreenBottomHeight, Int.floor_eq_iff]
  · norm_num [MapToDeviceCoords, PositionDot, pixDevT, devPixel1D,
      kScreenBottomWidth, kScreenBottomHeight, Int.floor_eq_iff]

/-- C2 (amended): for every integer device point `(x, y)` with
`0 ≤ x < W`, `0 ≤ y < H`, whenever the canvas content rectangle satisfies
`Pw ≥ 3(W−1)` and `Ph ≥ 3(H−1)` (the premise `Pw ≥ W`, `Ph ≥ H` of the
original claim is not sufficient, see the counterexample), mapping the
device point to its dot pixel position (`PositionDot`) and mapping that
pixel back (`MapToDeviceCoords`) returns exactly `(x, y)`, for any content
margins. -/
theorem c2_round_trip (mL mT Pw Ph x y : Int)
    (hx0 : 0 ≤ x) (hxw : x < kScreenBottomWidth)
    (hy0 : 0 ≤ y) (hyh : y < kScreenBottomHeight)
    (hPw : 3 * (kScreenBottomWidth - 1) ≤ Pw)
    (hPh : 3 * (kScreenBottomHeight - 1) ≤ Ph) :
    MapToDeviceCoords mL mT Pw Ph
        (PositionDot mL mT Pw Ph x y).1 (PositionDot mL mT Pw Ph x y).2
      = some (x, y) := by
  obtain ⟨h1x, h2x, h3x⟩ :=
    round_trip_1d kScreenBottomWidth Pw x (by norm_num [kScreenBottomWidth]) hx0 hxw hPw
  obtain ⟨h1y, h2y, h3y⟩ :=
    round_trip_1d kScreenBottomHeight Ph y (by norm_num [kScreenBottomHeight]) hy0 hyh hPh
  have exx : mL + devPixel1D kScreenBottomWidth Pw x - mL = devPixel1D kScreenBottomWidth Pw x := by
    ring
  have exy : mT + devPixel1D kScreenBottomHeight Ph y - mT = devPixel1D kScreenBottomHeight Ph y := by
    ring
  simp only [MapToDeviceCoords, PositionDot, exx, exy]
  rw [if_pos ⟨h1x, h2x, h1y, h2y⟩, h3x, h3y]

/-- C2 (witness): a concrete instance of the amended round trip. -/
theorem c2_round_trip_witness :
    MapToDeviceCoords 2 3 957 717
        (PositionDot 2 3 957 717 5 7).1 (PositionDot 2 3 957 717 5 7).2
      = some (5, 7) :=
  c2_round_trip 2 3 957 717 5 7 (by decide) (by decide) (by decide) (by decide)
    (by decide) (by decide)

/-! ## List helper lemmas -/

theorem length_modifyAt {α : Type} (l : List α) (i : Nat) (f : α → α) :
    (modifyAt l i f).length = l.length := by
  induction l generalizing i with
  | nil => rfl
  | cons a as ih =>
    cases i with
    | zero => rfl
    | succ n => simp [modifyAt, ih]

theorem get?_modifyAt_self {α : Type} (l : List α) (i : Nat) (f : α → α) :
    (modifyAt l i f).get? i = (l.get? i).map f := by
  induction l generalizing i with
  | nil => rfl
  | cons a as ih =>
    cases i with
    | zero => rfl
    | succ n => simpa [modifyAt] using ih n

theorem get?_modifyAt_ne {α : Type} (l : List α) (i j : Nat) (f : α → α) (h : j ≠ i) :
    (modifyAt l i f).get? j = l.get? j := by
  induction l generalizing i j with
  | nil => rfl
  | cons a as ih =>
    cases i with
    | zero =>
      cases j with
      | zero => exact absurd rfl h
      | succ m => rfl
    | succ n =>
      cases j with
      | zero => rfl
      | succ m => simpa [modifyAt] using ih n m (fun hh => h (by rw [hh]))

theorem map_modifyAt_of_eq {α β : Type} (l : List α) (i : Nat) (f : α → α) (g : α → β)
    (h : ∀ a, g (f a) = g a) : (modifyAt l i f).map g = l.map g := by
  induction l generalizing i with
  | nil => rfl
  | cons a as ih =>
    cases i with
    | zero => simp [modifyAt, h]
    | succ n => simp [modifyAt, ih]

theorem mem_modifyAt {α : Type} (l : List α) (i : Nat) (f : α → α) (a : α)
    (ha : a ∈ modifyAt l i f) : a ∈ l ∨ ∃ b ∈ l, a = f b := by
  induction l generalizing i with
  | nil => cases ha
  | cons x xs ih =>
    cases i with
    | zero =>
      rcases List.mem_cons.mp ha with h1 | h2
      · exact Or.inr ⟨x, List.mem_cons_self x xs, h1⟩
      · exact Or.inl (List.mem_cons_of_mem x h2)
    | succ n =>
      rcases List.mem_cons.mp ha with h1 | h2
      · exact Or.inl (h1 ▸ List.mem_cons_self x xs)
      · rcases ih n h2 with h3 | ⟨b, hb, hab⟩
        · exact Or.inl (List.mem_cons_of_mem x h3)
        · exact Or.inr ⟨b, List.mem_cons_of_mem x hb, hab⟩

theorem modifyAt_append_last {α : Type} (l : List α) (a : α) (f : α → α) :
    modifyAt (l ++ [a]) l.length f = l ++ [f a] := by
  induction l with
  | nil => rfl
  | cons x xs ih => simp [modifyAt, ih]

theorem get?_append_last {α : Type} (l : List α) (a : α) :
    (l ++ [a]).get? l.length = some a := by
  induction l with
  | nil => rfl
  | cons x xs ih => exact ih

theorem eraseIdx_append_last {α : Type} (l : List α) (a : α) :
    (l ++ [a]).eraseIdx l.length = l := by
  induction l with
  | nil => rfl
  | cons x xs ih => simp [List.eraseIdx, ih]

theorem map_eraseIdx {α β : Type} (l : List α) (i : Nat) (g : α → β) :
    (l.eraseIdx i).map g = (l.map g).eraseIdx i := by
  induction l generalizing i with
  | nil => rfl
  | cons x xs ih =>
    cases i with
    | zero => rfl
    | succ n => simp [List.eraseIdx, ih]

/-! ## Dot list lemmas -/

theorem RemoveDot_of_not_mem (dots : List Dot) (id : Int)
    (h : ∀ d ∈ dots, d.id ≠ id) : RemoveDot dots id = dots := by
  induction dots with
  | nil => rfl
  | cons d ds ih =>
    have hd : d.id ≠ id := h d (List.mem_cons_self d ds)
    simp only [RemoveDot, if_neg hd]
    rw [ih (fun x hx => h x (List.mem_cons_of_mem d hx))]

theorem RemoveDot_append_fresh (dots : List Dot) (a : Dot)
    (h : ∀ d ∈ dots, d.id ≠ a.id) : RemoveDot (dots ++ [a]) a.id = dots := by
  induction dots with
  | nil => simp [RemoveDot]
  | cons d ds ih =>
    have hd : d.id ≠ a.id := h d (List.mem_cons_self d ds)
    simp only [List.cons_append, RemoveDot, if_neg hd, List.append_eq]
    rw [ih (fun x hx => h x (List.mem_cons_of_mem d hx))]

theorem RemoveDot_eq_eraseIdx (dots : List Dot) (i : Nat) (dd : Dot)
    (hget : dots.get? i = some dd) (hnd : (dots.map Dot.id).Nodup) :
    RemoveDot dots dd.id = dots.eraseIdx i := by
  induction dots generalizing i with
  | nil => cases hget
  | cons d ds ih =>
    cases i with
    | zero =>
      simp only [List.get?] at hget
      cases hget
      simp [RemoveDot, List.eraseIdx]
    | succ n =>
      simp only [List.get?] at hget
      have hmem : dd ∈ ds := List.get?_mem hget
      have hne : d.id ≠ dd.id := by
        simp only [List.map_cons, List.nodup_cons] at hnd
        intro he
        exact hnd.1 (he ▸ List.mem_map_of_mem Dot.id hmem)
      simp only [RemoveDot, if_neg hne, List.eraseIdx]
      rw [ih n hget (by simpa using (List.nodup_cons.mp (by simpa using hnd)).2)]

/-! ## Frame lemmas for the dialog operations -/

theorem OnBindingDeleted1_only_dots (s : DialogState) (i : Nat) :
    OnBindingDeleted1 s i = {s with dots := (OnBindingDeleted1 s i).dots} := by
  unfold OnBindingDeleted1
  split
  · rfl
  · split
    · rfl
    · rfl

theorem removeRow_eq (s : DialogState) (i : Nat) :
    removeRow s i =
      {s with rows := s.rows.eraseIdx i, dots := (OnBindingDeleted1 s i).dots} := by
  unfold removeRow
  rw [OnBindingDeleted1_only_dots]

theorem applySetter_frame (s : DialogState) (st : Setter) (params : ParamPackage)
    (cancel : Bool) :
    (applySetter s st params cancel).input_setter = s.input_setter ∧
    (applySetter s st params cancel).timeout_running = s.timeout_running ∧
    (applySetter s st params cancel).poll_running = s.poll_running ∧
    (applySetter s st params cancel).fired = s.fired ∧
    (applySetter s st params cancel).touch_maps = s.touch_maps ∧
    (applySetter s st params cancel).max_dot_id = s.max_dot_id := by
  unfold applySetter
  split
  · exact ⟨rfl, rfl, rfl, rfl, rfl, rfl⟩
  · split
    · rw [removeRow_eq]
      exact ⟨rfl, rfl, rfl, rfl, rfl, rfl⟩
    · exact ⟨rfl, rfl, rfl, rfl, rfl, rfl⟩

theorem SetPollingResult_armed (s : DialogState) (params : ParamPackage) (cancel : Bool)
    (st : Setter) (h : s.input_setter = some st) :
    SetPollingResult s params cancel =
      applySetter (firedState s params cancel) st params cancel := by
  unfold SetPollingResult firedState
  dsimp only
  rw [h]

theorem SetPollingResult_idle (s : DialogState) (params : ParamPackage) (cancel : Bool)
    (h : s.input_setter = none) :
    SetPollingResult s params cancel =
      {s with timeout_running := false, poll_running := false} := by
  unfold SetPollingResult
  dsimp only
  rw [h]

theorem SetPollingResult_armed_fields (s : DialogState) (params : ParamPackage)
    (cancel : Bool) (st : Setter) (h : s.input_setter = some st) :
    (SetPollingResult s params cancel).input_setter = none ∧
    (SetPollingResult s params cancel).timeout_running = false ∧
    (SetPollingResult s params cancel).poll_running = false ∧
    (SetPollingResult s params cancel).fired = s.fired ++ [(params, cancel)] ∧
    (SetPollingResult s params cancel).touch_maps = s.touch_maps ∧
    (SetPollingResult s params cancel).max_dot_id = s.max_dot_id := by
  rw [SetPollingResult_armed s params cancel st h]
  obtain ⟨h1, h2, h3, h4, h5, h6⟩ :=
    applySetter_frame (firedState s params cancel) st params cancel
  exact ⟨h1, h2, h3, h4, h5, h6⟩

theorem DeleteBinding_frame (s : DialogState) (cur : Option Nat) :
    (DeleteBinding s cur).input_setter = s.input_setter ∧
    (DeleteBinding s cur).timeout_running = s.timeout_running ∧
    (DeleteBinding s cur).poll_running = s.poll_running ∧
    (DeleteBinding s cur).fired = s.fired ∧
    (DeleteBinding s cur).touch_maps = s.touch_maps ∧
    (DeleteBinding s cur).max_dot_id = s.max_dot_id := by
  unfold DeleteBinding
  split
  · exact ⟨rfl, rfl, rfl, rfl, rfl, rfl⟩
  · split
    · exact ⟨rfl, rfl, rfl, rfl, rfl, rfl⟩
    · rw [removeRow_eq]
      split
      · exact ⟨rfl, rfl, rfl, rfl, rfl, rfl⟩
      · exact ⟨rfl, rfl, rfl, rfl, rfl, rfl⟩

/-! ## C8 — coordinate-cell edits clamp into the device range -/

theorem rows_OnBindingChanged (s : DialogState) (i col : Nat) (v : Int) (hcol : col ≠ 0) :
    (OnBindingChanged s i col v).rows =
      modifyAt s.rows i (fun r =>
        if col = 1 then {r with x := max 0 (min v (kScreenBottomWidth - 1))}
        else {r with y := max 0 (min v (kScreenBottomHeight - 1))}) := by
  unfold OnBindingChanged
  rw [if_neg hcol]
  dsimp only
  split
  · rfl
  · split
    · rfl
    · rfl

/-- C8: editing a binding's coordinate cell clamps the raw value into the
device range — writing `v` into the X cell of any row stores
`clamp(v, 0, W−1)` and writing into the Y cell stores `clamp(v, 0, H−1)`;
the clamped value always satisfies `0 ≤ x < W` (resp. `0 ≤ y < H`), and a
cell edit keeps every row of an in-range list in range. -/
theorem c8_edit_clamps (s : DialogState) (i : Nat) (v : Int) (r : Row)
    (hr : s.rows.get? i = some r) :
    ((OnBindingChanged s i 1 v).rows.get? i).map Row.x
        = some (max 0 (min v (kScreenBottomWidth - 1))) ∧
    ((OnBindingChanged s i 2 v).rows.get? i).map Row.y
        = some (max 0 (min v (kScreenBottomHeight - 1))) ∧
    (0 ≤ max 0 (min v (kScreenBottomWidth - 1)) ∧
      max 0 (min v (kScreenBottomWidth - 1)) < kScreenBottomWidth) ∧
    (0 ≤ max 0 (min v (kScreenBottomHeight - 1)) ∧
      max 0 (min v (kScreenBottomHeight - 1)) < kScreenBottomHeight) ∧
    (∀ col, (∀ r0 ∈ s.rows, 0 ≤ r0.x ∧ r0.x < kScreenBottomWidth ∧
        0 ≤ r0.y ∧ r0.y < kScreenBottomHeight) →
      ∀ r1 ∈ (OnBindingChanged s i col v).rows,
        0 ≤ r1.x ∧ r1.x < kScreenBottomWidth ∧ 0 ≤ r1.y ∧ r1.y < kScreenBottomHeight) := by
  refine ⟨?_, ?_, ?_, ?_, ?_⟩
  · rw [rows_OnBindingChanged s i 1 v (by decide), get?_modifyAt_self, hr]
    simp
  · rw [rows_OnBindingChanged s i 2 v (by decide), get?_modifyAt_self, hr]
    simp
  · simp only [kScreenBottomWidth]
    omega
  · simp only [kScreenBottomHeight]
    omega
  · intro col hall r1 hr1
    by_cases hcol : col = 0
    · subst hcol
      have : (OnBindingChanged s i 0 v).rows = s.rows := by
        unfold OnBindingChanged
        rw [if_pos rfl]
      rw [this] at hr1
      exact hall r1 hr1
    · rw [rows_OnBindingChanged s i col v hcol] at hr1
      rcases mem_modifyAt _ _ _ _ hr1 with h1 | ⟨b, hb, hab⟩
      · exact hall r1 h1
      · obtain ⟨hbx1, hbx2, hby1, hby2⟩ := hall b hb
        by_cases h1 : col = 1
        · subst hab
          rw [if_pos h1]
          refine ⟨?_, ?_, hby1, hby2⟩
          · simp only [kScreenBottomWidth] at *
            omega
          · simp only [kScreenBottomWidth] at *
            omega
        · subst hab
          rw [if_neg h1]
          refine ⟨hbx1, hbx2, ?_, ?_⟩
          · simp only [kScreenBottomHeight] at *
            omega
          · simp only [kScreenBottomHeight] at *
            omega

/-- C8 (witness): writing −5 into the X cell of the example row stores 0. -/
theorem c8_edit_clamps_witness :
    ((OnBindingChanged exPend 0 1 (-5)).rows.get? 0).map Row.x
      = some (max 0 (min (-5) (kScreenBottomWidth - 1))) :=
  (c8_edit_clamps exPend 0 (-5) exRow rfl).1

/-! ## C10 — resolving a capture for an existing binding -/

theorem applySetter_resolve_eq (s : DialogState) (st : Setter) (params : ParamPackage) :
    applySetter s st params false =
      {s with rows := modifyAt s.rows st.row_index (resolveCell params)} := by
  unfold applySetter
  rfl

/-- C10: when a capture session armed for an existing binding
(`is_new = false`) resolves with some descriptor, only the descriptor cell
(column 0) of the target row changes: the X/Y cells and dot id of that row,
all other rows, and the dot set are exactly as before; the target row's
cell receives the serialized descriptor and its display text. -/
theorem c10_resolve_updates_descriptor_cell_only (s : DialogState) (i : Nat)
    (params : ParamPackage) (hset : s.input_setter = some ⟨i, false⟩) :
    (SetPollingResult s params false).dots = s.dots ∧
    (SetPollingResult s params false).rows.length = s.rows.length ∧
    (∀ j, j ≠ i → (SetPollingResult s params false).rows.get? j = s.rows.get? j) ∧
    ((SetPollingResult s params false).rows.get? i).map Row.x
      = (s.rows.get? i).map Row.x ∧
    ((SetPollingResult s params false).rows.get? i).map Row.y
      = (s.rows.get? i).map Row.y ∧
    ((SetPollingResult s params false).rows.get? i).map Row.dot
      = (s.rows.get? i).map Row.dot ∧
    (i < s.rows.length →
      ((SetPollingResult s params false).rows.get? i).map Row.data
          = some params.Serialize ∧
      ((SetPollingResult s params false).rows.get? i).map Row.text
          = some (ButtonToText params)) := by
  rw [SetPollingResult_armed s params false ⟨i, false⟩ hset, applySetter_resolve_eq]
  dsimp only [firedState]
  refine ⟨rfl, ?_, ?_, ?_, ?_, ?_, ?_⟩
  · exact length_modifyAt s.rows i _
  · intro j hj
    exact get?_modifyAt_ne s.rows i j _ hj
  · rw [get?_modifyAt_self]
    cases s.rows.get? i <;> rfl
  · rw [get?_modifyAt_self]
    cases s.rows.get? i <;> rfl
  · rw [get?_modifyAt_self]
    cases s.rows.get? i <;> rfl
  · intro hi
    rw [get?_modifyAt_self]
    cases hri : s.rows.get? i with
    | none => exact absurd (List.get?_eq_none.mp hri) (by omega)
    | some r => exact ⟨rfl, rfl⟩

/-- C10 (witness): resolving the armed example session with a keyboard
descriptor leaves dots, row count and coordinates unchanged. -/
theorem c10_resolve_witness :
    (SetPollingResult exCapture (GenerateKeyboardParam 70) false).dots = exCapture.dots ∧
    (SetPollingResult exCapture (GenerateKeyboardParam 70) false).rows.length
      = exCapture.rows.length ∧
    (∀ j, j ≠ 0 →
      (SetPollingResult exCapture (GenerateKeyboardParam 70) false).rows.get? j
        = exCapture.rows.get? j) ∧
    ((SetPollingResult exCapture (GenerateKeyboardParam 70) false).rows.get? 0).map Row.x
      = (exCapture.rows.get? 0).map Row.x ∧
    ((SetPollingResult exCapture (GenerateKeyboardParam 70) false).rows.get? 0).map Row.y
      = (exCapture.rows.get? 0).map Row.y ∧
    ((SetPollingResult exCapture (GenerateKeyboardParam 70) false).rows.get? 0).map Row.dot
      = (exCapture.rows.get? 0).map Row.dot ∧
    (0 < exCapture.rows.length →
      ((SetPollingResult exCapture (GenerateKeyboardParam 70) false).rows.get? 0).map Row.data
          = some (GenerateKeyboardParam 70).Serialize ∧
      ((SetPollingResult exCapture (GenerateKeyboardParam 70) false).rows.get? 0).map Row.text
          = some (ButtonToText (GenerateKeyboardParam 70))) :=
  c10_resolve_updates_descriptor_cell_only exCapture 0 (GenerateKeyboardParam 70) rfl

/-! ## C6 — key handling during a capture session -/

/-- C6: while a capture session is armed, a press of any key other than
Escape resolves the session immediately (the key event itself performs
`SetPollingResult` with the keyboard-engine descriptor for that key, cancel
false, with no poll tick involved); pressing Escape, or expiry of the
running timeout, terminates the session as cancelled with the empty
descriptor. -/
theorem c6_capture_key_handling (s : DialogState) (st : Setter) (code : Int)
    (cur cur2 : Option Nat) (hset : s.input_setter = some st) :
    (code ≠ keyEscape →
      step s (.key code cur) = SetPollingResult s (GenerateKeyboardParam code) false ∧
      (step s (.key code cur)).fired = s.fired ++ [(GenerateKeyboardParam code, false)] ∧
      (GenerateKeyboardParam code).Has engineKey = true ∧
      (GenerateKeyboardParam code).getStr engineKey [] = strChars "keyboard" ∧
      (step s (.key code cur)).input_setter = none ∧
      (step s (.key code cur)).timeout_running = false ∧
      (step s (.key code cur)).poll_running = false) ∧
    ((step s (.key keyEscape cur2)).fired = s.fired ++ [(ParamPackage.empty, true)] ∧
      (step s (.key keyEscape cur2)).input_setter = none) ∧
    (s.timeout_running = true →
      (step s .timeout).fired = s.fired ++ [(ParamPackage.empty, true)] ∧
      (step s .timeout).input_setter = none) := by
  have hkey : ∀ (c : Int) (cr : Option Nat), step s (.key c cr) = KeyPressEvent s c cr := by
    intro c cr
    rfl
  refine ⟨?_, ?_, ?_⟩
  · intro hc
    have heq : step s (.key code cur) = SetPollingResult s (GenerateKeyboardParam code) false := by
      rw [hkey]
      unfold KeyPressEvent
      rw [hset]
      dsimp only
      rw [if_pos hc]
    obtain ⟨f1, f2, f3, f4, f5, f6⟩ :=
      SetPollingResult_armed_fields s (GenerateKeyboardParam code) false st hset
    refine ⟨heq, by rw [heq]; exact f4, ?_, ?_, by rw [heq]; exact f1,
      by rw [heq]; exact f2, by rw [heq]; exact f3⟩
    · simp [GenerateKeyboardParam, ParamPackage.Has]
    · simp [GenerateKeyboardParam, ParamPackage.getStr]
  · have heq : step s (.key keyEscape cur2) = SetPollingResult s ParamPackage.empty true := by
      rw [hkey]
      unfold KeyPressEvent
      rw [hset]
      dsimp only
      rw [if_neg (by simp)]
    obtain ⟨f1, f2, f3, f4, f5, f6⟩ :=
      SetPollingResult_armed_fields s ParamPackage.empty true st hset
    exact ⟨by rw [heq]; exact f4, by rw [heq]; exact f1⟩
  · intro hto
    have heq : step s .timeout = SetPollingResult s ParamPackage.empty true := by
      unfold step
      rw [hto, if_pos rfl]
    obtain ⟨f1, f2, f3, f4, f5, f6⟩ :=
      SetPollingResult_armed_fields s ParamPackage.empty true st hset
    exact ⟨by rw [heq]; exact f4, by rw [heq]; exact f1⟩

/-- C6 (witness): a concrete armed session handling key 70 and Escape. -/
theorem c6_capture_key_handling_witness :
    (70 ≠ keyEscape →
      step exCapture (.key 70 none)
          = SetPollingResult exCapture (GenerateKeyboardParam 70) false ∧
      (step exCapture (.key 70 none)).fired
          = exCapture.fired ++ [(GenerateKeyboardParam 70, false)] ∧
      (GenerateKeyboardParam 70).Has engineKey = true ∧
      (GenerateKeyboardParam 70).getStr engineKey [] = strChars "keyboard" ∧
      (step exCapture (.key 70 none)).input_setter = none ∧
      (step exCapture (.key 70 none)).timeout_running = false ∧
      (step exCapture (.key 70 none)).poll_running = false) ∧
    ((step exCapture (.key keyEscape none)).fired
        = exCapture.fired ++ [(ParamPackage.empty, true)] ∧
      (step exCapture (.key keyEscape none)).input_setter = none) ∧
    (exCapture.timeout_running = true →
      (step exCapture .timeout).fired = exCapture.fired ++ [(ParamPackage.empty, true)] ∧
      (step exCapture .timeout).input_setter = none) :=
  c6_capture_key_handling exCapture ⟨0, false⟩ 70 none none rfl

/-! ## C3 — deleting the last profile -/

theorem foldl_appendRowFor_frame (buttons : List (List Char)) (s : DialogState) :
    (buttons.foldl appendRowFor s).touch_maps = s.touch_maps ∧
    (buttons.foldl appendRowFor s).selected_index = s.selected_index ∧
    (buttons.foldl appendRowFor s).input_setter = s.input_setter ∧
    (buttons.foldl appendRowFor s).timeout_running = s.timeout_running ∧
    (buttons.foldl appendRowFor s).poll_running = s.poll_running ∧
    (buttons.foldl appendRowFor s).fired = s.fired := by
  induction buttons generalizing s with
  | nil => exact ⟨rfl, rfl, rfl, rfl, rfl, rfl⟩
  | cons b bs ih =>
    obtain ⟨h1, h2, h3, h4, h5, h6⟩ := ih (appendRowFor s b)
    exact ⟨h1, h2, h3, h4, h5, h6⟩

theorem UpdateUiDisplay_frame (s : DialogState) :
    (UpdateUiDisplay s).touch_maps = s.touch_maps ∧
    (UpdateUiDisplay s).selected_index = s.selected_index ∧
    (UpdateUiDisplay s).input_setter = s.input_setter ∧
    (UpdateUiDisplay s).timeout_running = s.timeout_running ∧
    (UpdateUiDisplay s).poll_running = s.poll_running ∧
    (UpdateUiDisplay s).fired = s.fired := by
  unfold UpdateUiDisplay
  exact foldl_appendRowFor_frame _ _

/-- C3 (counterexample): invoking `DeleteMapping` (confirmed) on a store
that holds exactly one profile does not leave the store unchanged — it
deletes the only profile, leaving the profile list empty and
`selected_index = -1`. -/
theorem c3_delete_last_profile_empties_store :
    (DeleteMapping exIdle true).touch_maps = [] ∧
    (DeleteMapping exIdle true).selected_index = -1 ∧
    exIdle.touch_maps ≠ [] := by
  refine ⟨?_, ?_, ?_⟩
  · rfl
  · have h := (UpdateUiDisplay_frame
      {exIdle with touch_maps := [], selected_index := -1}).2.1
    exact h
  · intro h
    cases h

/-- C3 (amended): `DeleteMapping` itself has no last-profile guard — the
protection is `UpdateUiDisplay` disabling the delete button unless more than
one profile exists.  In every state the button is enabled in (more than one
profile, valid selection), a confirmed deletion shrinks the list by one and
re-selects profile 0, the list stays non-empty, and a declined confirmation
changes nothing; only under that guard does the profile list never become
empty. -/
theorem c3_delete_guarded (s : DialogState) (confirm : Bool)
    (hmany : 1 < s.touch_maps.length) (_hsel0 : 0 ≤ s.selected_index)
    (hsel : s.selected_index.toNat < s.touch_maps.length) :
    (DeleteMapping s confirm).touch_maps ≠ [] ∧
    (confirm = true →
      (DeleteMapping s confirm).touch_maps.length = s.touch_maps.length - 1 ∧
      (DeleteMapping s confirm).selected_index = 0) ∧
    (confirm = false → DeleteMapping s confirm = s) := by
  cases confirm with
  | false =>
    have heq : DeleteMapping s false = s := by
      unfold DeleteMapping
      rw [if_pos rfl]
    refine ⟨?_, ?_, fun _ => heq⟩
    · rw [heq]
      intro hnil
      rw [hnil] at hmany
      simp at hmany
    · intro h
      cases h
  | true =>
    have hlen : (s.touch_maps.eraseIdx s.selected_index.toNat).length + 1
        = s.touch_maps.length := List.length_eraseIdx_add_one hsel
    have hne : (s.touch_maps.eraseIdx s.selected_index.toNat).length ≠ 0 := by omega
    have heq : DeleteMapping s true =
        UpdateUiDisplay {s with
          touch_maps := s.touch_maps.eraseIdx s.selected_index.toNat,
          selected_index := 0} := by
      unfold DeleteMapping
      rw [if_neg (by simp)]
      dsimp only
      rw [if_pos hne]
    obtain ⟨hf1, hf2, _, _, _, _⟩ := UpdateUiDisplay_frame
      {s with
        touch_maps := s.touch_maps.eraseIdx s.selected_index.toNat,
        selected_index := 0}
    dsimp only at hf1 hf2
    refine ⟨?_, fun _ => ⟨?_, ?_⟩, ?_⟩
    · rw [heq, hf1]
      intro hnil
      rw [hnil] at hne
      simp at hne
    · rw [heq, hf1]
      omega
    · rw [heq, hf2]
    · intro h
      cases h

/-- C3 (witness): deleting from the two-profile example store. -/
theorem c3_delete_guarded_witness :
    (DeleteMapping exTwo true).touch_maps ≠ [] ∧
    (true = true →
      (DeleteMapping exTwo true).touch_maps.length = exTwo.touch_maps.length - 1 ∧
      (DeleteMapping exTwo true).selected_index = 0) ∧
    (true = false → DeleteMapping exTwo true = exTwo) :=
  c3_delete_guarded exTwo true (by decide) (by decide) (by decide)

/-! ## C4 — committing pending edits on profile switches -/

/-- C4 (counterexample): with profile 0 selected and a pending in-memory
binding row, creating a new profile does not first commit the pending edits
— the stored profile 0 keeps its old (empty) button list, whereas a commit
(`SaveCurrentMapping`) would have stored the binding. -/
theorem c4_new_profile_discards_profile0_edits :
    (NewMapping exPend "B").touch_maps.get? 0
        ≠ ((SaveCurrentMapping exPend).touch_maps).get? 0 ∧
    (NewMapping exPend "B").touch_maps.get? 0 = some ⟨"default", []⟩ := by
  constructor
  · decide
  · rfl

/-- C4 (amended): a profile switch through the combo box always commits the
pending rows first, whatever profile index is currently selected, and so
does final acceptance (`ApplyConfiguration`) — but profile creation commits
only when the currently selected profile index is greater than 0;
`NewMapping` invoked while profile 0 is selected appends the new profile
without committing (see the counterexample). -/
theorem c4_commit_on_switch :
    (∀ (s : DialogState) (idx : Int),
      (SelectProfile s idx).touch_maps = (SaveCurrentMapping s).touch_maps) ∧
    (∀ s : DialogState,
      (ApplyConfiguration s).touch_maps = (SaveCurrentMapping s).touch_maps) ∧
    (∀ (s : DialogState) (name : String), ¬name = "" → s.selected_index > 0 →
      (NewMapping s name).touch_maps
        = (SaveCurrentMapping s).touch_maps ++ [TouchFromButtonMap.mk name []]) := by
  refine ⟨?_, ?_, ?_⟩
  · intro s idx
    unfold SelectProfile
    have h := (UpdateUiDisplay_frame
      {SaveCurrentMapping s with selected_index := idx}).1
    dsimp only at h
    exact h
  · intro s
    rfl
  · intro s name hname hsel
    unfold NewMapping
    rw [if_neg hname, if_pos hsel]
    have h := (UpdateUiDisplay_frame
      {SaveCurrentMapping s with
        touch_maps := (SaveCurrentMapping s).touch_maps
          ++ [TouchFromButtonMap.mk name []],
        selected_index :=
          (((SaveCurrentMapping s).touch_maps
            ++ [TouchFromButtonMap.mk name []]).length : Int) - 1}).1
    dsimp only at h
    exact h

/-- C4 (witness): a combo switch away from profile 0 with a pending edit
commits it, final acceptance on the same state commits it, and profile
creation from the example profile 1 commits first. -/
theorem c4_commit_on_switch_witness :
    (SelectProfile exPend 1).touch_maps = (SaveCurrentMapping exPend).touch_maps ∧
    (ApplyConfiguration exPend).touch_maps = (SaveCurrentMapping exPend).touch_maps ∧
    (NewMapping exPendAt1 "C").touch_maps
      = (SaveCurrentMapping exPendAt1).touch_maps ++ [TouchFromButtonMap.mk "C" []] :=
  ⟨c4_commit_on_switch.1 exPend 1, c4_commit_on_switch.2.1 exPend,
    c4_commit_on_switch.2.2 exPendAt1 "C" (by decide) (by decide)⟩

/-! ## C9 — only bound descriptors are persisted -/

theorem saveRow_some_has_engine (r : Row) (str : List Char)
    (h : saveRow r = some str) :
    (ParamPackage.Parse str).Has engineKey = true := by
  unfold saveRow at h
  by_cases hd : r.data.isEmpty
  · rw [if_pos hd] at h
    cases h
  · rw [if_neg hd] at h
    dsimp only at h
    by_cases hh : (ParamPackage.Parse r.data).Has engineKey = false
    · rw [if_pos hh] at h
      cases h
    · rw [if_neg hh] at h
      have hHas : (ParamPackage.Parse r.data).Has engineKey = true := by
        cases hb : (ParamPackage.Parse r.data).Has engineKey with
        | false => exact absurd hb hh
        | true => rfl
      obtain ⟨v, hv⟩ := ParamPackage.has_exists _ engineKey hHas
      obtain ⟨⟨hk1, hk2⟩, hv1, hv2⟩ := Parse_pair_free r.data engineKey v hv
      have hm1 : (engineKey, v) ∈ ((ParamPackage.Parse r.data).setInt xKey r.x).data :=
        ParamPackage.mem_setInt_of_ne _ _ _ _ _ hv (by decide)
      have hm2 : (engineKey, v) ∈
          (((ParamPackage.Parse r.data).setInt xKey r.x).setInt yKey r.y).data :=
        ParamPackage.mem_setInt_of_ne _ _ _ _ _ hm1 (by decide)
      have hmem : (engineKey, v) ∈ (ParamPackage.Parse
          ((((ParamPackage.Parse r.data).setInt xKey r.x).setInt yKey r.y).Serialize)).data :=
        mem_Parse_Serialize _ _ _ hm2 ⟨hk1, hk2⟩ ⟨hv1, hv2⟩
      have hstr : str =
          (((ParamPackage.Parse r.data).setInt xKey r.x).setInt yKey r.y).Serialize := by
        cases h
        rfl
      rw [hstr]
      exact ParamPackage.mem_has _ _ _ hmem

/-- C9: every button string the save loop (`SaveCurrentMapping`) writes into
the stored profile parses back to a descriptor with an `engine` key; rows
whose payload is empty or whose descriptor is unbound contribute nothing —
filtering them away leaves the saved list unchanged. -/
theorem c9_saved_strings_bound (rows : List Row) :
    (∀ str ∈ savedButtons rows, (ParamPackage.Parse str).Has engineKey = true) ∧
    savedButtons rows = savedButtons (rows.filter (fun r => (saveRow r).isSome)) := by
  constructor
  · intro str hstr
    rw [savedButtons, List.mem_filterMap] at hstr
    obtain ⟨r, _, hr⟩ := hstr
    exact saveRow_some_has_engine r str hr
  · induction rows with
    | nil => rfl
    | cons r rs ih =>
      cases h : saveRow r with
      | none =>
        simp [savedButtons, List.filterMap_cons, List.filter_cons, h] at ih ⊢
        exact ih
      | some str =>
        simp [savedButtons, List.filterMap_cons, List.filter_cons, h] at ih ⊢
        exact ih

/-- C9 (witness): the concrete saved string of the example row parses back
to a bound descriptor. -/
theorem c9_saved_strings_bound_witness :
    (ParamPackage.Parse exSaved).Has engineKey = true :=
  (c9_saved_strings_bound [exRow]).1 exSaved (by decide)

/-! ## C5 — cancelling a capture for a brand-new binding -/

theorem NewBinding_eq (s : DialogState) (px py : Int) :
    NewBinding s px py =
      {s with
        rows := s.rows ++ [⟨strChars "[press key]", [], some (s.max_dot_id + 1), px, py⟩]
        dots := s.dots ++ [⟨s.max_dot_id + 1, px, py⟩]
        max_dot_id := s.max_dot_id + 1
        input_setter := some ⟨s.rows.length, true⟩
        timeout_running := true
        poll_running := true} := by
  unfold NewBinding GetButtonInput AddDot
  dsimp only
  have hlen : (s.rows ++ [(⟨[], [], some (s.max_dot_id + 1), px, py⟩ : Row)]).length - 1
      = s.rows.length := by simp
  rw [hlen, modifyAt_append_last]

theorem applySetter_cancel_new (s : DialogState) (i : Nat) (params : ParamPackage) :
    applySetter s ⟨i, true⟩ params true = removeRow s i := by
  unfold applySetter
  rfl

theorem applySetter_cancel_old (s : DialogState) (i : Nat) (params : ParamPackage) :
    applySetter s ⟨i, false⟩ params true =
      {s with rows := modifyAt s.rows i restoreCell} := by
  unfold applySetter
  rfl

theorem OnBindingDeleted1_dots_of_get (s : DialogState) (i : Nat) (r : Row) (d : Int)
    (hget : s.rows.get? i = some r) (hdot : r.dot = some d) :
    (OnBindingDeleted1 s i).dots = RemoveDot s.dots d := by
  unfold OnBindingDeleted1
  simp only [hget, hdot]

/-- Cancelling the capture started right after `NewBinding` removes exactly
the speculative row and its dot. -/
theorem cancel_after_new (s : DialogState) (px py : Int) (params : ParamPackage)
    (hfresh : ∀ d ∈ s.dots, d.id ≤ s.max_dot_id) :
    (SetPollingResult (NewBinding s px py) params true).rows = s.rows ∧
    (SetPollingResult (NewBinding s px py) params true).dots = s.dots := by
  rw [NewBinding_eq]
  rw [SetPollingResult_armed _ params true ⟨s.rows.length, true⟩ rfl,
      applySetter_cancel_new, removeRow_eq]
  constructor
  · exact eraseIdx_append_last s.rows _
  · have hget : (firedState
        {s with
          rows := s.rows ++ [⟨strChars "[press key]", [], some (s.max_dot_id + 1), px, py⟩]
          dots := s.dots ++ [⟨s.max_dot_id + 1, px, py⟩]
          max_dot_id := s.max_dot_id + 1
          input_setter := some ⟨s.rows.length, true⟩
          timeout_running := true
          poll_running := true} params true).rows.get? s.rows.length
        = some ⟨strChars "[press key]", [], some (s.max_dot_id + 1), px, py⟩ :=
      get?_append_last s.rows _
    rw [OnBindingDeleted1_dots_of_get _ _ _ (s.max_dot_id + 1) hget rfl]
    have hne : ∀ dd ∈ s.dots, dd.id ≠ (⟨s.max_dot_id + 1, px, py⟩ : Dot).id := by
      intro dd hdd
      have := hfresh dd hdd
      simp only [Dot.mk.injEq]
      omega
    exact RemoveDot_append_fresh s.dots _ hne

/-- C5: a capture session started for a brand-new binding (`is_new = true`,
begun by clicking the canvas) that is cancelled — by timeout with no device
input, or by Escape — removes both the speculative binding row and its dot,
returning the row list and the dot set exactly to their pre-call values. -/
theorem c5_cancel_new_binding_restores (s : DialogState) (px py : Int) (cur : Option Nat)
    (hidle : s.input_setter = none)
    (hfresh : ∀ d ∈ s.dots, d.id ≤ s.max_dot_id) :
    ((step (step s (.addBinding px py)) .timeout).rows = s.rows ∧
      (step (step s (.addBinding px py)) .timeout).dots = s.dots) ∧
    ((step (step s (.addBinding px py)) (.key keyEscape cur)).rows = s.rows ∧
      (step (step s (.addBinding px py)) (.key keyEscape cur)).dots = s.dots) := by
  have hnone : s.input_setter.isNone = true := by rw [hidle]; rfl
  have h1 : step s (.addBinding px py) = NewBinding s px py := by
    simp [step, hnone]
  have hto : (NewBinding s px py).timeout_running = true := by rw [NewBinding_eq]
  have hset : (NewBinding s px py).input_setter = some ⟨s.rows.length, true⟩ := by
    rw [NewBinding_eq]
  constructor
  · have h2 : step (NewBinding s px py) .timeout
        = SetPollingResult (NewBinding s px py) ParamPackage.empty true := by
      simp [step, hto]
    rw [h1, h2]
    exact cancel_after_new s px py ParamPackage.empty hfresh
  · have h3 : step (NewBinding s px py) (.key keyEscape cur)
        = SetPollingResult (NewBinding s px py) ParamPackage.empty true := by
      simp [step, KeyPressEvent, hset]
    rw [h1, h3]
    exact cancel_after_new s px py ParamPackage.empty hfresh

/-- C5 (witness): the add-then-cancel pair on the example pending state. -/
theorem c5_cancel_new_binding_restores_witness :
    ((step (step exPend (.addBinding 5 5)) .timeout).rows = exPend.rows ∧
      (step (step exPend (.addBinding 5 5)) .timeout).dots = exPend.dots) ∧
    ((step (step exPend (.addBinding 5 5)) (.key keyEscape none)).rows = exPend.rows ∧
      (step (step exPend (.addBinding 5 5)) (.key keyEscape none)).dots = exPend.dots) :=
  c5_cancel_new_binding_restores exPend 5 5 none rfl (by decide)

theorem CaptureInv_after_fire (s : DialogState) (st : Setter) (params : ParamPackage)
    (cancel : Bool) (hs : s.input_setter = some st) (hinv : CaptureInv s)
    (hcancel : cancel = true → params = ParamPackage.empty) :
    CaptureInv (SetPollingResult s params cancel) ∧
    (SetPollingResult s params cancel).input_setter = none := by
  obtain ⟨f1, f2, f3, f4, f5, f6⟩ := SetPollingResult_armed_fields s params cancel st hs
  have hfe : s.fired = [] := (hinv.1 st hs).1
  refine ⟨⟨?_, ?_, ?_⟩, f1⟩
  · intro st2 hst2
    rw [f1] at hst2
    cases hst2
  · intro _
    refine ⟨f2, f3, ?_⟩
    rw [f4, hfe]
    rfl
  · intro f hf
    rw [f4, hfe] at hf
    simp only [List.nil_append, List.mem_singleton] at hf
    subst hf
    intro hc
    exact hcancel hc

theorem step_CaptureInv (s : DialogState) (e : Event) (hinv : CaptureInv s)
    (he : isSessionEvent e = true) :
    CaptureInv (step s e) := by
  cases e with
  | key code cur =>
    cases hs : s.input_setter with
    | none =>
      have hstep : step s (.key code cur)
          = if code = keyDelete then DeleteBinding s cur else s := by
        simp [step, KeyPressEvent, hs]
      rw [hstep]
      by_cases hc : code = keyDelete
      · rw [if_pos hc]
        obtain ⟨g1, g2, g3, g4, _, _⟩ := DeleteBinding_frame s cur
        obtain ⟨ht, hp, hl⟩ := hinv.2.1 hs
        refine ⟨?_, ?_, ?_⟩
        · intro st2 hst2
          rw [g1, hs] at hst2
          cases hst2
        · intro _
          rw [g2, g3, g4]
          exact ⟨ht, hp, hl⟩
        · rw [g4]
          exact hinv.2.2
      · rw [if_neg hc]
        exact hinv
    | some st =>
      have hstep : step s (.key code cur)
          = if code ≠ keyEscape
              then SetPollingResult s (GenerateKeyboardParam code) false
              else SetPollingResult s ParamPackage.empty true := by
        simp only [step, KeyPressEvent, hs]
      rw [hstep]
      by_cases hc : code = keyEscape
      · rw [if_neg (by simp [hc])]
        exact (CaptureInv_after_fire s st ParamPackage.empty true hs hinv
          (fun _ => rfl)).1
      · rw [if_pos hc]
        exact (CaptureInv_after_fire s st (GenerateKeyboardParam code) false hs hinv
          (by intro h; cases h)).1
  | timeout =>
    by_cases hto : s.timeout_running = true
    · have hstep : step s .timeout = SetPollingResult s ParamPackage.empty true := by
        simp [step, hto]
      rw [hstep]
      cases hs : s.input_setter with
      | none =>
        have := (hinv.2.1 hs).1
        rw [this] at hto
        cases hto
      | some st =>
        exact (CaptureInv_after_fire s st ParamPackage.empty true hs hinv
          (fun _ => rfl)).1
    · have hstep : step s .timeout = s := by
        simp [step, hto]
      rw [hstep]
      exact hinv
  | poll results =>
    by_cases hpo : s.poll_running = true
    · cases hscan : pollScan results with
      | none =>
        have hstep : step s (.poll results) = s := by
          simp [step, hpo, hscan]
        rw [hstep]
        exact hinv
      | some params =>
        have hstep : step s (.poll results) = SetPollingResult s params false := by
          simp [step, hpo, hscan]
        rw [hstep]
        cases hs : s.input_setter with
        | none =>
          have := (hinv.2.1 hs).2.1
          rw [this] at hpo
          cases hpo
        | some st =>
          exact (CaptureInv_after_fire s st params false hs hinv
            (by intro h; cases h)).1
    · have hstep : step s (.poll results) = s := by
        simp [step, hpo]
      rw [hstep]
      exact hinv
  | addBinding px py => cases he
  | deleteBind cur => cases he

theorem step_none_of_none (s : DialogState) (e : Event) (hinv : CaptureInv s)
    (he : isSessionEvent e = true) (hn : s.input_setter = none) :
    (step s e).input_setter = none := by
  cases e with
  | key code cur =>
    have hstep : step s (.key code cur)
        = if code = keyDelete then DeleteBinding s cur else s := by
      simp [step, KeyPressEvent, hn]
    rw [hstep]
    by_cases hc : code = keyDelete
    · rw [if_pos hc, (DeleteBinding_frame s cur).1]
      exact hn
    · rw [if_neg hc]
      exact hn
  | timeout =>
    have hto : s.timeout_running = false := (hinv.2.1 hn).1
    have hstep : step s .timeout = s := by
      simp [step, hto]
    rw [hstep]
    exact hn
  | poll results =>
    have hpo : s.poll_running = false := (hinv.2.1 hn).2.1
    have hstep : step s (.poll results) = s := by
      simp [step, hpo]
    rw [hstep]
    exact hn
  | addBinding px py => cases he
  | deleteBind cur => cases he

theorem step_timeout_disarms (s : DialogState) (hinv : CaptureInv s) :
    (step s .timeout).input_setter = none := by
  by_cases hto : s.timeout_running = true
  · have hstep : step s .timeout = SetPollingResult s ParamPackage.empty true := by
      simp [step, hto]
    rw [hstep]
    cases hs : s.input_setter with
    | none =>
      rw [SetPollingResult_idle s ParamPackage.empty true hs]
      exact hs
    | some st =>
      exact (SetPollingResult_armed_fields s ParamPackage.empty true st hs).1
  · have hstep : step s .timeout = s := by
      simp [step, hto]
    rw [hstep]
    cases hs : s.input_setter with
    | none => rfl
    | some st => exact absurd (hinv.1 st hs).2.1 hto

theorem run_CaptureInv (evs : List Event) (s : DialogState) (hinv : CaptureInv s)
    (hsess : ∀ e ∈ evs, isSessionEvent e = true) : CaptureInv (run s evs) := by
  induction evs generalizing s with
  | nil => exact hinv
  | cons e es ih =>
    exact ih (step s e)
      (step_CaptureInv s e hinv (hsess e (List.mem_cons_self e es)))
      (fun e2 h2 => hsess e2 (List.mem_cons_of_mem e h2))

theorem run_none (evs : List Event) (s : DialogState) (hinv : CaptureInv s)
    (hn : s.input_setter = none) (hsess : ∀ e ∈ evs, isSessionEvent e = true) :
    (run s evs).input_setter = none := by
  induction evs generalizing s with
  | nil => exact hn
  | cons e es ih =>
    exact ih (step s e)
      (step_CaptureInv s e hinv (hsess e (List.mem_cons_self e es)))
      (step_none_of_none s e hinv (hsess e (List.mem_cons_self e es)) hn)
      (fun e2 h2 => hsess e2 (List.mem_cons_of_mem e h2))

/-- C1: once a capture session has started (`GetButtonInput`), the
completion callback is invoked at most once under any sequence of key, poll
and timeout events, exactly once as soon as the sequence contains the
timeout tick, and every cancel invocation carries the empty descriptor
(resolutions carry `cancel = false`); events arriving after the session
became terminal never invoke it again. -/
theorem c1_callback_fires_exactly_once (s : DialogState) (row : Nat) (is_new : Bool)
    (evs : List Event)
    (_hidle : s.input_setter = none) (hfired : s.fired = [])
    (hsess : ∀ e ∈ evs, isSessionEvent e = true) :
    (run (GetButtonInput s row is_new) evs).fired.length ≤ 1 ∧
    (Event.timeout ∈ evs → (run (GetButtonInput s row is_new) evs).fired.length = 1) ∧
    (∀ f ∈ (run (GetButtonInput s row is_new) evs).fired,
      f.2 = true → f.1 = ParamPackage.empty) := by
  have hinv1 : CaptureInv (GetButtonInput s row is_new) := by
    refine ⟨?_, ?_, ?_⟩
    · intro st2 _
      refine ⟨?_, rfl, rfl⟩
      show s.fired = []
      exact hfired
    · intro h
      cases h
    · intro f hf
      have : s.fired = [] := hfired
      rw [show (GetButtonInput s row is_new).fired = s.fired from rfl, this] at hf
      cases hf
  have hinvF := run_CaptureInv evs (GetButtonInput s row is_new) hinv1 hsess
  refine ⟨?_, ?_, hinvF.2.2⟩
  · cases hs2 : (run (GetButtonInput s row is_new) evs).input_setter with
    | some st =>
      rw [(hinvF.1 st hs2).1]
      simp
    | none =>
      rw [(hinvF.2.1 hs2).2.2]
  · intro hmem
    obtain ⟨l1, l2, heq⟩ := List.append_of_mem hmem
    subst heq
    have hs1s : ∀ e ∈ l1, isSessionEvent e = true :=
      fun e hh => hsess e (List.mem_append_left _ hh)
    have hs2s : ∀ e ∈ l2, isSessionEvent e = true :=
      fun e hh => hsess e (List.mem_append_right _ (List.mem_cons_of_mem _ hh))
    have hinvA := run_CaptureInv l1 (GetButtonInput s row is_new) hinv1 hs1s
    have hrun : run (GetButtonInput s row is_new) (l1 ++ Event.timeout :: l2)
        = run (step (run (GetButtonInput s row is_new) l1) .timeout) l2 := by
      simp [run, List.foldl_append]
    rw [hrun]
    have hinvB : CaptureInv (step (run (GetButtonInput s row is_new) l1) .timeout) :=
      step_CaptureInv _ _ hinvA rfl
    have hnB : (step (run (GetButtonInput s row is_new) l1) .timeout).input_setter = none :=
      step_timeout_disarms _ hinvA
    have hinvC := run_CaptureInv l2 _ hinvB hs2s
    have hnF := run_none l2 _ hinvB hnB hs2s
    exact (hinvC.2.1 hnF).2.2

/-- C1 (witness): a session on the example state, driven by an unmatched
poll tick, a resolving key press, and then a stale timeout tick. -/
theorem c1_callback_fires_exactly_once_witness :
    (run (GetButtonInput exPend 0 false)
        [Event.poll [ParamPackage.empty], Event.key 65 none, Event.timeout]).fired.length ≤ 1 ∧
    (Event.timeout ∈ [Event.poll [ParamPackage.empty], Event.key 65 none, Event.timeout] →
      (run (GetButtonInput exPend 0 false)
        [Event.poll [ParamPackage.empty], Event.key 65 none, Event.timeout]).fired.length = 1) ∧
    (∀ f ∈ (run (GetButtonInput exPend 0 false)
        [Event.poll [ParamPackage.empty], Event.key 65 none, Event.timeout]).fired,
      f.2 = true → f.1 = ParamPackage.empty) :=
  c1_callback_fires_exactly_once exPend 0 false
    [Event.poll [ParamPackage.empty], Event.key 65 none, Event.timeout] rfl rfl (by decide)

/-! ## C7 — one dot per binding row -/

theorem mem_of_mem_eraseIdx {α : Type} (l : List α) (i : Nat) (a : α)
    (h : a ∈ l.eraseIdx i) : a ∈ l := by
  induction l generalizing i with
  | nil => cases h
  | cons x xs ih =>
    cases i with
    | zero => exact List.mem_cons_of_mem x h
    | succ n =>
      rcases List.mem_cons.mp h with h1 | h2
      · exact h1 ▸ List.mem_cons_self x xs
      · exact List.mem_cons_of_mem x (ih n h2)

theorem nodup_eraseIdx {α : Type} (l : List α) (i : Nat) (h : l.Nodup) :
    (l.eraseIdx i).Nodup := by
  induction l generalizing i with
  | nil => exact h
  | cons x xs ih =>
    cases i with
    | zero => exact (List.nodup_cons.mp h).2
    | succ n =>
      obtain ⟨hx, hxs⟩ := List.nodup_cons.mp h
      exact List.nodup_cons.mpr
        ⟨fun hmem => hx (mem_of_mem_eraseIdx xs n x hmem), ih n hxs⟩

theorem not_mem_eraseIdx_of_nodup {α : Type} (l : List α) (i : Nat) (a : α)
    (hget : l.get? i = some a) (h : l.Nodup) : a ∉ l.eraseIdx i := by
  induction l generalizing i with
  | nil => cases hget
  | cons x xs ih =>
    obtain ⟨hx, hxs⟩ := List.nodup_cons.mp h
    cases i with
    | zero =>
      simp only [List.get?] at hget
      cases hget
      exact hx
    | succ n =>
      simp only [List.get?] at hget
      intro hmem
      rcases List.mem_cons.mp hmem with h1 | h2
      · exact hx (h1 ▸ List.get?_mem hget)
      · exact ih n hget hxs h2

theorem aligned_get (rows : List Row) (dots : List Dot)
    (h : rows.map Row.dot = dots.map (fun d => some d.id)) (i : Nat) (r : Row)
    (hget : rows.get? i = some r) :
    ∃ dd, dots.get? i = some dd ∧ r.dot = some dd.id := by
  have h1 : (rows.map Row.dot).get? i = some r.dot := by
    rw [List.get?_map, hget]
    rfl
  rw [h, List.get?_map] at h1
  cases hd : dots.get? i with
  | none =>
    rw [hd] at h1
    cases h1
  | some dd =>
    rw [hd] at h1
    have h2 : some dd.id = r.dot := by simpa using h1
    exact ⟨dd, rfl, h2.symm⟩

theorem SyncInv_NewBinding (s : DialogState) (px py : Int) (hinv : SyncInv s) :
    SyncInv (NewBinding s px py) := by
  obtain ⟨h1, h2, h3, _⟩ := hinv
  rw [NewBinding_eq]
  unfold SyncInv
  refine ⟨?_, ?_, ?_, ?_⟩
  · rw [List.map_append, List.map_append, h1]
    rfl
  · rw [List.map_append]
    simp only [List.map_cons, List.map_nil]
    refine List.Nodup.append h2 (List.nodup_singleton _) ?_
    intro a ha1 ha2
    simp only [List.mem_singleton] at ha2
    obtain ⟨d, hd, hda⟩ := List.mem_map.mp ha1
    have := h3 d hd
    omega
  · intro d hd
    rcases List.mem_append.mp hd with hmem | hmem
    · have hle := h3 d hmem
      show d.id ≤ s.max_dot_id + 1
      omega
    · simp only [List.mem_singleton] at hmem
      subst hmem
      simp
  · intro st hst
    simp only [Option.some.injEq] at hst
    subst hst
    simp

theorem DeleteBinding_none_eq (s : DialogState) : DeleteBinding s none = s := rfl

theorem DeleteBinding_miss_eq (s : DialogState) (i : Nat)
    (hget : s.rows.get? i = none) : DeleteBinding s (some i) = s := by
  unfold DeleteBinding
  simp only [hget]

theorem DeleteBinding_hit_eq (s : DialogState) (i : Nat) (r : Row) (d : Int)
    (hget : s.rows.get? i = some r) (hdot : r.dot = some d) :
    DeleteBinding s (some i) = removeRow {s with dots := RemoveDot s.dots d} i := by
  unfold DeleteBinding
  simp only [hget, hdot]

theorem SyncInv_DeleteBinding (s : DialogState) (cur : Option Nat) (hinv : SyncInv s)
    (hn : s.input_setter = none) : SyncInv (DeleteBinding s cur) := by
  obtain ⟨h1, h2, h3, _⟩ := hinv
  cases cur with
  | none => rw [DeleteBinding_none_eq]; exact ⟨h1, h2, h3, fun st hst => by
      rw [hn] at hst; cases hst⟩
  | some i =>
    cases hget : s.rows.get? i with
    | none => rw [DeleteBinding_miss_eq s i hget]; exact ⟨h1, h2, h3, fun st hst => by
        rw [hn] at hst; cases hst⟩
    | some r =>
      obtain ⟨dd, hdget, hrdot⟩ := aligned_get s.rows s.dots h1 i r hget
      rw [DeleteBinding_hit_eq s i r dd.id hget hrdot, removeRow_eq]
      have hdots1 : RemoveDot s.dots dd.id = s.dots.eraseIdx i :=
        RemoveDot_eq_eraseIdx s.dots i dd hdget h2
      have hnotmem : ∀ d2 ∈ s.dots.eraseIdx i, d2.id ≠ dd.id := by
        intro d2 hd2 heq2
        have hidget : (s.dots.map Dot.id).get? i = some dd.id := by
          rw [List.get?_map, hdget]
          rfl
        have hidmem : dd.id ∈ (s.dots.map Dot.id).eraseIdx i := by
          rw [← map_eraseIdx]
          exact heq2 ▸ List.mem_map_of_mem Dot.id hd2
        exact not_mem_eraseIdx_of_nodup _ i dd.id hidget h2 hidmem
      have hOBD : (OnBindingDeleted1 {s with dots := RemoveDot s.dots dd.id} i).dots
          = s.dots.eraseIdx i := by
        have hget2 : ({s with dots := RemoveDot s.dots dd.id} : DialogState).rows.get? i
            = some r := hget
        rw [OnBindingDeleted1_dots_of_get _ i r dd.id hget2 hrdot]
        dsimp only
        rw [hdots1]
        exact RemoveDot_of_not_mem _ _ hnotmem
      unfold SyncInv
      dsimp only
      rw [hOBD]
      refine ⟨?_, ?_, ?_, ?_⟩
      · rw [map_eraseIdx, map_eraseIdx, h1]
      · rw [map_eraseIdx]
        exact nodup_eraseIdx _ i h2
      · intro d hd
        exact h3 d (mem_of_mem_eraseIdx _ i d hd)
      · intro st hst
        rw [hn] at hst
        cases hst

theorem SyncInv_removeRow_aligned (s : DialogState) (i : Nat)
    (h1 : s.rows.map Row.dot = s.dots.map (fun d => some d.id))
    (h2 : (s.dots.map Dot.id).Nodup)
    (h3 : ∀ d ∈ s.dots, d.id ≤ s.max_dot_id)
    (r : Row) (hget : s.rows.get? i = some r) :
    (removeRow s i).rows.map Row.dot
        = (removeRow s i).dots.map (fun d => some d.id) ∧
    ((removeRow s i).dots.map Dot.id).Nodup ∧
    (∀ d ∈ (removeRow s i).dots, d.id ≤ (removeRow s i).max_dot_id) ∧
    (removeRow s i).input_setter = s.input_setter := by
  obtain ⟨dd, hdget, hrdot⟩ := aligned_get s.rows s.dots h1 i r hget
  have hOBD : (OnBindingDeleted1 s i).dots = s.dots.eraseIdx i := by
    rw [OnBindingDeleted1_dots_of_get s i r dd.id hget hrdot]
    exact RemoveDot_eq_eraseIdx s.dots i dd hdget h2
  rw [removeRow_eq]
  dsimp only
  rw [hOBD]
  refine ⟨?_, ?_, ?_, rfl⟩
  · rw [map_eraseIdx, map_eraseIdx, h1]
  · rw [map_eraseIdx]
    exact nodup_eraseIdx _ i h2
  · intro d hd
    exact h3 d (mem_of_mem_eraseIdx _ i d hd)

theorem SyncInv_SetPollingResult (s : DialogState) (params : ParamPackage) (cancel : Bool)
    (hinv : SyncInv s) : SyncInv (SetPollingResult s params cancel) := by
  obtain ⟨h1, h2, h3, h4⟩ := hinv
  cases hs : s.input_setter with
  | none =>
    rw [SetPollingResult_idle s params cancel hs]
    refine ⟨h1, h2, h3, ?_⟩
    intro st2 hst2
    simp only at hst2
    rw [hs] at hst2
    cases hst2
  | some st =>
    obtain ⟨idx, isnew⟩ := st
    have hidx : idx < s.rows.length := h4 ⟨idx, isnew⟩ hs
    rw [SetPollingResult_armed s params cancel ⟨idx, isnew⟩ hs]
    cases cancel with
    | false =>
      rw [applySetter_resolve_eq]
      refine ⟨?_, h2, h3, ?_⟩
      · show (modifyAt s.rows idx (resolveCell params)).map Row.dot
          = s.dots.map (fun d => some d.id)
        rw [map_modifyAt_of_eq s.rows idx (resolveCell params) Row.dot (fun r => rfl), h1]
      · intro st2 hst2
        simp [firedState] at hst2
    | true =>
      cases isnew with
      | true =>
        rw [applySetter_cancel_new]
        obtain ⟨r, hget⟩ : ∃ r, s.rows.get? idx = some r := by
          cases hg : s.rows.get? idx with
          | none => exact absurd (List.get?_eq_none.mp hg) (by omega)
          | some r => exact ⟨r, rfl⟩
        have hlem := SyncInv_removeRow_aligned (firedState s params true) idx
          h1 h2 h3 r hget
        refine ⟨hlem.1, hlem.2.1, hlem.2.2.1, ?_⟩
        intro st2 hst2
        rw [hlem.2.2.2] at hst2
        simp [firedState] at hst2
      | false =>
        rw [applySetter_cancel_old]
        refine ⟨?_, h2, h3, ?_⟩
        · show (modifyAt s.rows idx restoreCell).map Row.dot
            = s.dots.map (fun d => some d.id)
          rw [map_modifyAt_of_eq s.rows idx restoreCell Row.dot (fun r => rfl), h1]
        · intro st2 hst2
          simp [firedState] at hst2

theorem step_SyncInv (s : DialogState) (e : Event) (hinv : SyncInv s) :
    SyncInv (step s e) := by
  cases e with
  | key code cur =>
    cases hs : s.input_setter with
    | none =>
      have hstep : step s (.key code cur)
          = if code = keyDelete then DeleteBinding s cur else s := by
        simp [step, KeyPressEvent, hs]
      rw [hstep]
      by_cases hc : code = keyDelete
      · rw [if_pos hc]
        exact SyncInv_DeleteBinding s cur hinv hs
      · rw [if_neg hc]
        exact hinv
    | some st =>
      have hstep : step s (.key code cur)
          = if code ≠ keyEscape
              then SetPollingResult s (GenerateKeyboardParam code) false
              else SetPollingResult s ParamPackage.empty true := by
        simp only [step, KeyPressEvent, hs]
      rw [hstep]
      by_cases hc : code = keyEscape
      · rw [if_neg (by simp [hc])]
        exact SyncInv_SetPollingResult s ParamPackage.empty true hinv
      · rw [if_pos hc]
        exact SyncInv_SetPollingResult s (GenerateKeyboardParam code) false hinv
  | timeout =>
    by_cases hto : s.timeout_running = true
    · have hstep : step s .timeout = SetPollingResult s ParamPackage.empty true := by
        simp [step, hto]
      rw [hstep]
      exact SyncInv_SetPollingResult s ParamPackage.empty true hinv
    · have hstep : step s .timeout = s := by
        simp [step, hto]
      rw [hstep]
      exact hinv
  | poll results =>
    by_cases hpo : s.poll_running = true
    · cases hscan : pollScan results with
      | none =>
        have hstep : step s (.poll results) = s := by
          simp [step, hpo, hscan]
        rw [hstep]
        exact hinv
      | some params =>
        have hstep : step s (.poll results) = SetPollingResult s params false := by
          simp [step, hpo, hscan]
        rw [hstep]
        exact SyncInv_SetPollingResult s params false hinv
    · have hstep : step s (.poll results) = s := by
        simp [step, hpo]
      rw [hstep]
      exact hinv
  | addBinding px py =>
    cases hs : s.input_setter with
    | none =>
      have hstep : step s (.addBinding px py) = NewBinding s px py := by
        simp [step, hs]
      rw [hstep]
      exact SyncInv_NewBinding s px py hinv
    | some st =>
      have hstep : step s (.addBinding px py) = s := by
        simp [step, hs]
      rw [hstep]
      exact hinv
  | deleteBind cur =>
    cases hs : s.input_setter with
    | none =>
      have hstep : step s (.deleteBind cur) = DeleteBinding s cur := by
        simp [step, hs]
      rw [hstep]
      exact SyncInv_DeleteBinding s cur hinv hs
    | some st =>
      have hstep : step s (.deleteBind cur) = s := by
        simp [step, hs]
      rw [hstep]
      exact hinv

theorem run_SyncInv (evs : List Event) (s : DialogState) (hinv : SyncInv s) :
    SyncInv (run s evs) := by
  induction evs generalizing s with
  | nil => exact hinv
  | cons e es ih => exact ih (step s e) (step_SyncInv s e hinv)

/-- C7: starting from any state satisfying the row/dot synchronisation
invariant, after any sequence of canvas clicks (add binding), delete
actions, key presses, poll ticks and timeouts, the number of dots on the
preview equals the number of binding rows in the list. -/
theorem c7_dot_count_equals_row_count (s : DialogState) (evs : List Event)
    (hinv : SyncInv s) :
    (run s evs).dots.length = (run s evs).rows.length := by
  have h := (run_SyncInv evs s hinv).1
  have hlen := congrArg List.length h
  simp only [List.length_map] at hlen
  exact hlen.symm

/-- C7 (witness): a concrete mixed sequence — add a binding, resolve it by
key, add another, cancel it by timeout, then delete the first row. -/
theorem c7_dot_count_equals_row_count_witness :
    (run exIdle [Event.addBinding 3 4, Event.key 65 none, Event.addBinding 1 2,
      Event.timeout, Event.deleteBind (some 0)]).dots.length
      = (run exIdle [Event.addBinding 3 4, Event.key 65 none, Event.addBinding 1 2,
          Event.timeout, Event.deleteBind (some 0)]).rows.length :=
  c7_dot_count_equals_row_count exIdle
    [Event.addBinding 3 4, Event.key 65 none, Event.addBinding 1 2,
      Event.timeout, Event.deleteBind (some 0)]
    ⟨rfl, by decide, by decide, fun st hst => by cases hst⟩
